import Mathlib

/-!
A verification development for the minesweeper web application's server
handlers.  The definitions below are shallow embeddings of the TypeScript
handler functions in `src/server/src/handlers` (and the unnamed handler
files): the database tables `gamesTable` / `gameCellsTable` become plain
records and a total cell-store function, and each handler becomes a pure
function over them.  Database reads/writes become record reads/updates;
`new Date()` timestamps are passed in explicitly (milliseconds since
epoch, as `Int`); thrown errors become `Except` errors.
-/

namespace Minesweeper

instance {ε α : Type} [DecidableEq ε] [DecidableEq α] : DecidableEq (Except ε α) := fun
  | Except.error e, Except.error e' => decidable_of_iff (e = e') (by simp)
  | Except.error _, Except.ok _ => isFalse (by simp)
  | Except.ok _, Except.error _ => isFalse (by simp)
  | Except.ok a, Except.ok a' => decidable_of_iff (a = a') (by simp)

/-- The `status` column of `gamesTable` (`gameStatusSchema` in schema.ts). -/
inductive GameStatus
  | in_progress
  | won
  | lost
  | paused
deriving DecidableEq, Repr

/-- The `difficulty` column (`gameDifficultySchema` in schema.ts). -/
inductive Difficulty
  | beginner
  | intermediate
  | expert
  | custom
deriving DecidableEq, Repr

/-- One row of `gameCellsTable` for a fixed game, minus the key columns:
the mutable/generated cell state at a (row, column) position. -/
structure CellData where
  is_mine : Bool
  is_revealed : Bool
  is_flagged : Bool
  adjacent_mines : Nat
deriving DecidableEq, Repr

/-- The cell store of one game: the `gameCellsTable` rows of that game,
keyed by (row, column).  A game created by the handlers has exactly one
row per in-bounds position; positions outside the grid are never read. -/
def Cells : Type := Nat → Nat → CellData

/-- One row of `gamesTable`.  `start_time`, `end_time` and `updated_at`
are timestamps in milliseconds. -/
structure Game where
  player_name : Option String
  difficulty : Difficulty
  rows : Nat
  columns : Nat
  mines : Nat
  status : GameStatus
  start_time : Int
  end_time : Option Int
  duration_seconds : Option Int
  cells_revealed : Nat
  flags_placed : Int
  updated_at : Int
deriving DecidableEq, Repr

/-- A cell of the response grid (`cellSchema` in schema.ts). -/
structure RespCell where
  row : Nat
  column : Nat
  is_mine : Bool
  is_revealed : Bool
  is_flagged : Bool
  adjacent_mines : Nat
deriving DecidableEq, Repr

/-- The `directions` array shared by `calculateAdjacentMines` and
`revealAdjacentCells` in create_game.ts. -/
def directions : List (Int × Int) :=
  [(-1, -1), (-1, 0), (-1, 1), (0, -1), (0, 1), (1, -1), (1, 0), (1, 1)]

/-- The bounds check `newRow >= 0 && newRow < rows && newCol >= 0 && newCol < columns`. -/
def inBoundsI (rows cols : Nat) (r c : Int) : Prop :=
  0 ≤ r ∧ r < (rows : Int) ∧ 0 ≤ c ∧ c < (cols : Int)

instance (rows cols : Nat) (r c : Int) : Decidable (inBoundsI rows cols r c) := by
  unfold inBoundsI
  infer_instance

/-- `db.update(gameCellsTable).set({ is_revealed: true })` on the row at (r, c). -/
def revealCell (g : Cells) (r c : Nat) : Cells :=
  fun r' c' => if r' = r ∧ c' = c then { g r c with is_revealed := true } else g r' c'

/-- The direction loop of `revealAdjacentCells` in create_game.ts, iterating
over the remaining direction list `ds` around position (row, col).  For each
in-bounds neighbor that is not revealed, not flagged and not a mine, the
neighbor is revealed, and if its `adjacent_mines` is 0 the expansion
(`expand`, the recursive `revealAdjacentCells` call) restarts at the
neighbor. -/
def dirsLoop (rows cols : Nat) (expand : Cells → Nat → Nat → Cells) :
    List (Int × Int) → Cells → Nat → Nat → Cells
  | [], g, _, _ => g
  | d :: ds, g, row, col =>
    let nr : Int := (row : Int) + d.1
    let nc : Int := (col : Int) + d.2
    let g' :=
      if inBoundsI rows cols nr nc then
        let cell := g nr.toNat nc.toNat
        if cell.is_revealed = false ∧ cell.is_flagged = false ∧ cell.is_mine = false then
          let g2 := revealCell g nr.toNat nc.toNat
          if cell.adjacent_mines = 0 then expand g2 nr.toNat nc.toNat else g2
        else g
      else g
    dirsLoop rows cols expand ds g' row col

/-- `revealAdjacentCells(gameId, row, column, maxRows, maxColumns)`: run the
direction loop with the full direction list, nested calls expanding further.
The source recursion carries no fuel; here `fuel` bounds the nesting depth.
Each nested call is made just after a fresh cell was revealed, so any `fuel`
at least the number of unrevealed in-bounds cells reproduces the unbounded
source behaviour (the `fuel = 0` truncation is then unreachable). -/
def revealAdjacentCells (rows cols : Nat) : Nat → Cells → Nat → Nat → Cells
  | 0, g, _, _ => g
  | fuel + 1, g, row, col =>
    dirsLoop rows cols (revealAdjacentCells rows cols fuel) directions g row col

/-- The in-bounds positions of a rows×columns grid (the set of cell rows
the handlers create for one game). -/
def gridPositions (rows cols : Nat) : Finset (Nat × Nat) :=
  Finset.range rows ×ˢ Finset.range cols

/-- `countRevealedCells(gameId)`: the number of cell rows of the game with
`is_revealed = true`. -/
def countRevealedCells (rows cols : Nat) (g : Cells) : Nat :=
  ((gridPositions rows cols).filter (fun p => (g p.1 p.2).is_revealed = true)).card

/-- `Math.max(1, Math.floor((endTime.getTime() - start_time.getTime()) / 1000))`.
JavaScript's `Math.floor` on the real quotient of two integers is floor
division, `Int.fdiv`. -/
def computeDuration (startTime endTime : Int) : Int :=
  max 1 ((endTime - startTime).fdiv 1000)

/-- `buildGameGrid(gameId, rows, columns)` in create_game.ts: the response
grid of `makeMove`, copying every stored cell field verbatim (no masking of
`is_mine` or `adjacent_mines`). -/
def buildGameGrid (g : Cells) : Nat → Nat → RespCell :=
  fun r c =>
    { row := r
      column := c
      is_mine := (g r c).is_mine
      is_revealed := (g r c).is_revealed
      is_flagged := (g r c).is_flagged
      adjacent_mines := (g r c).adjacent_mines }

/-- The `action` field of `gameMoveInputSchema`. -/
inductive MoveAction
  | reveal
  | flag
  | unflag
deriving DecidableEq, Repr

/-- A move request (`gameMoveInputSchema` minus `game_id`; the game row the
id refers to is passed directly). -/
structure MoveInput where
  row : Nat
  column : Nat
  action : MoveAction
deriving DecidableEq, Repr

/-- The errors thrown by `makeMove` (the `Game not found` / `Cell not found`
lookups are not modelled: the game row and the total cell store stand for a
successful lookup). -/
inductive MoveError
  | gameNotInProgress
  | outOfBounds
  | alreadyRevealed
  | cannotRevealFlagged
  | cannotFlagRevealed
  | alreadyFlagged
  | notFlagged
deriving DecidableEq, Repr

/-- A row of `highScoresTable` (minus id/created_at). -/
structure HighScoreRec where
  player_name : String
  difficulty : Difficulty
  duration_seconds : Int
deriving DecidableEq, Repr

/-- The `GameStateResponse` record (gameStateResponseSchema). -/
structure GameStateResponse where
  game : Game
  grid : Nat → Nat → RespCell
  remaining_mines : Int
  is_game_over : Bool
  is_victory : Bool

/-- The successful outcome of `makeMove`: the updated game row, the updated
cell store, the high-score row inserted on a named win (if any), and the
response returned to the caller. -/
structure MoveOutcome where
  game : Game
  cells : Cells
  highScore : Option HighScoreRec
  resp : GameStateResponse

/-- Lines 432-444 of create_game.ts: assemble the `GameStateResponse`
from the updated game row and cell store. -/
def mkMoveResponse (game : Game) (cells : Cells) : GameStateResponse :=
  { game := game
    grid := buildGameGrid cells
    remaining_mines := max 0 ((game.mines : Int) - game.flags_placed)
    is_game_over := game.status = GameStatus.won ∨ game.status = GameStatus.lost
    is_victory := game.status = GameStatus.won }

/-- `makeMove` in create_game.ts.  `now` stands for the `new Date()` reads
(the end-of-game timestamp and `updated_at` are taken microseconds apart in
the source; they are identified here). -/
def makeMove (game : Game) (cells : Cells) (input : MoveInput) (now : Int) :
    Except MoveError MoveOutcome :=
  if game.status ≠ GameStatus.in_progress then
    Except.error MoveError.gameNotInProgress
  else if game.rows ≤ input.row ∨ game.columns ≤ input.column then
    Except.error MoveError.outOfBounds
  else
    let currentCell := cells input.row input.column
    match input.action with
    | MoveAction.reveal =>
      if currentCell.is_revealed then Except.error MoveError.alreadyRevealed
      else if currentCell.is_flagged then Except.error MoveError.cannotRevealFlagged
      else
        let cells1 := revealCell cells input.row input.column
        let cells2 :=
          if currentCell.is_mine = false ∧ currentCell.adjacent_mines = 0 then
            revealAdjacentCells game.rows game.columns (game.rows * game.columns)
              cells1 input.row input.column
          else cells1
        -- fuel rows*columns bounds the unrevealed cell count, see revealAdjacentCells
        let revealedCount := countRevealedCells game.rows game.columns cells2
        if currentCell.is_mine then
          let d := computeDuration game.start_time now
          let game' := { game with
            status := GameStatus.lost
            end_time := some now
            duration_seconds := some d
            cells_revealed := revealedCount
            updated_at := now }
          Except.ok ⟨game', cells2, none, mkMoveResponse game' cells2⟩
        else
          let nonMineCells := game.rows * game.columns - game.mines
          if nonMineCells ≤ revealedCount then
            let d := computeDuration game.start_time now
            let game' := { game with
              status := GameStatus.won
              end_time := some now
              duration_seconds := some d
              cells_revealed := revealedCount
              updated_at := now }
            let hs :=
              match game.player_name with
              | some name => some (⟨name, game.difficulty, d⟩ : HighScoreRec)
              | none => none
            Except.ok ⟨game', cells2, hs, mkMoveResponse game' cells2⟩
          else
            let game' := { game with cells_revealed := revealedCount, updated_at := now }
            Except.ok ⟨game', cells2, none, mkMoveResponse game' cells2⟩
    | MoveAction.flag =>
      if currentCell.is_revealed then Except.error MoveError.cannotFlagRevealed
      else if currentCell.is_flagged then Except.error MoveError.alreadyFlagged
      else
        let cells' := fun r' c' =>
          if r' = input.row ∧ c' = input.column then
            { currentCell with is_flagged := true }
          else cells r' c'
        let game' := { game with flags_placed := game.flags_placed + 1, updated_at := now }
        Except.ok ⟨game', cells', none, mkMoveResponse game' cells'⟩
    | MoveAction.unflag =>
      if currentCell.is_flagged = false then Except.error MoveError.notFlagged
      else
        let cells' := fun r' c' =>
          if r' = input.row ∧ c' = input.column then
            { currentCell with is_flagged := false }
          else cells r' c'
        let game' := { game with flags_placed := game.flags_placed - 1, updated_at := now }
        Except.ok ⟨game', cells', none, mkMoveResponse game' cells'⟩

/-- The grid cell built by `getGameState` (unnamed handler file part_003):
`is_flagged` and `adjacent_mines` are copied from the stored row before the
visibility branch, so `adjacent_mines` always carries the true value;
`is_mine` is copied only when the cell is revealed or the game is over,
and `is_revealed` is forced true for every cell once the game is over. -/
def getGameStateCell (status : GameStatus) (g : Cells) (r c : Nat) : RespCell :=
  let cell := g r c
  let isGameOver := status = GameStatus.won ∨ status = GameStatus.lost
  if cell.is_revealed = true ∨ isGameOver then
    { row := r, column := c
      is_mine := cell.is_mine
      is_revealed := cell.is_revealed || decide isGameOver
      is_flagged := cell.is_flagged
      adjacent_mines := cell.adjacent_mines }
  else
    { row := r, column := c
      is_mine := false
      is_revealed := false
      is_flagged := cell.is_flagged
      adjacent_mines := cell.adjacent_mines }

/-- `getGameState` (unnamed handler file part_003).  Note
`remaining_mines` is `game.mines - game.flags_placed` with no lower bound. -/
def getGameState (game : Game) (g : Cells) : GameStateResponse :=
  { game := game
    grid := fun r c => getGameStateCell game.status g r c
    remaining_mines := (game.mines : Int) - game.flags_placed
    is_game_over := game.status = GameStatus.won ∨ game.status = GameStatus.lost
    is_victory := game.status = GameStatus.won }

/-- The mine-placement loop of `generateMinefield` in create_game.ts:
`while (minesPlaced < mineCount) { pick random cell; if not a mine, set it }`.
The successive `Math.random` draws are supplied as the list `picks` (each
draw `Math.floor(Math.random()*rows/columns)` is an in-bounds position);
the loop's state is the set of positions already made mines.  An exhausted
pick list models a run of the loop that has not yet terminated, so `none`
stands for non-termination on that draw sequence. -/
def placeMines (mineCount : Nat) : List (Nat × Nat) → Finset (Nat × Nat) →
    Option (Finset (Nat × Nat))
  | [], placed => if mineCount ≤ placed.card then some placed else none
  | p :: rest, placed =>
    if mineCount ≤ placed.card then some placed
    else placeMines mineCount rest (if p ∈ placed then placed else insert p placed)

/-- The cell initialisation loop of `generateMinefield`: every cell starts
unrevealed, unflagged, `adjacent_mines = 0`, and is a mine exactly when the
placement loop chose its position. -/
def minefieldOf (s : Finset (Nat × Nat)) : Cells :=
  fun r c =>
    { is_mine := decide ((r, c) ∈ s)
      is_revealed := false
      is_flagged := false
      adjacent_mines := 0 }

/-- The inner direction loop of `calculateAdjacentMines` in create_game.ts:
the number of directions whose offset from (r, c) is in bounds and holds a
mine.  (The surrounding pass mutates only `adjacent_mines`, never `is_mine`,
so reading mine bits from the pre-pass grid is faithful.) -/
def countAdjacent (g : Cells) (rows cols : Nat) (r c : Nat) : Nat :=
  (directions.filter (fun d =>
    let nr : Int := (r : Int) + d.1
    let nc : Int := (c : Int) + d.2
    decide (inBoundsI rows cols nr nc) && (g nr.toNat nc.toNat).is_mine)).length

/-- `calculateAdjacentMines(grid, rows, columns)` in create_game.ts: every
in-bounds non-mine cell gets its neighbor mine count; mine cells (and
out-of-bounds positions) are left untouched. -/
def calculateAdjacentMines (rows cols : Nat) (g : Cells) : Cells :=
  fun r c =>
    if r < rows ∧ c < cols ∧ (g r c).is_mine = false then
      { g r c with adjacent_mines := countAdjacent g rows cols r c }
    else g r c

/-- The error thrown by `createGame`'s configuration check. -/
inductive CreateError
  | invalidConfiguration
  | outOfRandomness
deriving DecidableEq, Repr

/-- The generation path of `createGame` in create_game.ts: the
`config.mines >= totalCells` validation, then `generateMinefield` (driven by
the pick sequence `picks`), then `calculateAdjacentMines`.
`CreateError.outOfRandomness` marks a pick sequence on which the sampling
loop has not terminated; the source loop would simply keep drawing. -/
def createGameGrid (rows cols mineCount : Nat) (picks : List (Nat × Nat)) :
    Except CreateError Cells :=
  if rows * cols ≤ mineCount then Except.error CreateError.invalidConfiguration
  else
    match placeMines mineCount picks ∅ with
    | none => Except.error CreateError.outOfRandomness
    | some s => Except.ok (calculateAdjacentMines rows cols (minefieldOf s))

/-- The number of mine cells a caller can count in a grid. -/
def mineCount (rows cols : Nat) (g : Cells) : Nat :=
  ((gridPositions rows cols).filter (fun p => (g p.1 p.2).is_mine = true)).card

/-- The sampling loop of `generateMinePositions` in the restart handler
(src/unnamed/part_002): `while (minePositions.size < totalMines) { draw a
position; minePositions.add(position) }`.  The string keys `` `${row},${col}` ``
are injective in the (row, col) pair, so the `Set<string>` is modelled as a
`Finset` of pairs; `Set.add` of a present key is `insert` of a present
element.  As in `placeMines`, the successive draws are the list `picks` and
an exhausted list (`none`) models a run of the loop that has not yet
terminated. -/
def addMinePositions (totalMines : Nat) : List (Nat × Nat) → Finset (Nat × Nat) →
    Option (Finset (Nat × Nat))
  | [], s => if totalMines ≤ s.card then some s else none
  | p :: rest, s =>
    if totalMines ≤ s.card then some s
    else addMinePositions totalMines rest (insert p s)

/-- `minePositions.has(`${r},${c}`)` for possibly negative loop coordinates:
a key with a negative component is never in the set (the set only holds keys
of in-range draws), and for non-negative components the key equality is the
pair equality. -/
def keyMem (s : Finset (Nat × Nat)) (r c : Int) : Bool :=
  decide (0 ≤ r) && decide (0 ≤ c) && decide ((r.toNat, c.toNat) ∈ s)

/-- The 3×3 loop block of the restart handler's `calculateAdjacentMines`:
`r` from `row-1` to `row+1` and `c` from `col-1` to `col+1`, row-major. -/
def boxDeltas : List (Int × Int) :=
  [(-1, -1), (-1, 0), (-1, 1), (0, -1), (0, 0), (0, 1), (1, -1), (1, 0), (1, 1)]

/-- `calculateAdjacentMines(row, col, minePositions)` in the restart handler
(src/unnamed/part_002): count set membership over the 3×3 box around
(row, col), skipping the center (`if (r === row && c === col) continue`);
there is no bounds check — out-of-range keys are simply never present. -/
def calculateAdjacentMinesSet (row col : Nat) (s : Finset (Nat × Nat)) : Nat :=
  (boxDeltas.filter (fun d =>
    (!(decide (d.1 = 0) && decide (d.2 = 0))) &&
    keyMem s ((row : Int) + d.1) ((col : Int) + d.2))).length

/-- The cell-construction loop of `restartGame` (src/unnamed/part_002):
`isMine = minePositions.has(key)`,
`adjacentMines = isMine ? 0 : calculateAdjacentMines(row, col, minePositions)`,
all cells hidden and unflagged. -/
def restartCellsOf (s : Finset (Nat × Nat)) : Cells :=
  fun r c =>
    { is_mine := decide ((r, c) ∈ s)
      is_revealed := false
      is_flagged := false
      adjacent_mines := if (r, c) ∈ s then 0 else calculateAdjacentMinesSet r c s }

/-- The generation path of `restartGame` (src/unnamed/part_002):
`generateMinePositions` validates `totalMines >= totalCells` (throwing
`Too many mines for the grid size`) and samples the mine set, then the cell
loop builds the grid. -/
def restartGameGrid (rows cols totalMines : Nat) (picks : List (Nat × Nat)) :
    Except CreateError Cells :=
  if rows * cols ≤ totalMines then Except.error CreateError.invalidConfiguration
  else
    match addMinePositions totalMines picks ∅ with
    | none => Except.error CreateError.outOfRandomness
    | some s => Except.ok (restartCellsOf s)

/-- The errors thrown by `saveHighScore` in save_high_score.ts. -/
inductive SaveError
  | gameNotFound
  | notWon
  | noDuration
deriving DecidableEq, Repr

/-- `saveHighScore` in save_high_score.ts: `game?` is the result of the
games-table lookup; `inputName` is the caller-supplied `player_name`.
The handler checks only existence, `status === 'won'` and a non-null
duration; it reads neither the session's `player_name` nor the sign of the
duration, and inserts the caller-supplied name verbatim. -/
def saveHighScore (game? : Option Game) (inputName : String) :
    Except SaveError HighScoreRec :=
  match game? with
  | none => Except.error SaveError.gameNotFound
  | some game =>
    if game.status ≠ GameStatus.won then Except.error SaveError.notWon
    else
      match game.duration_seconds with
      | none => Except.error SaveError.noDuration
      | some d => Except.ok ⟨inputName, game.difficulty, d⟩

/-- Spec-side adjacency: two distinct positions sharing an edge or a corner,
i.e. at Chebyshev distance 1 (each coordinate differs by at most 1). -/
def neighbor (p q : Nat × Nat) : Prop :=
  p ≠ q ∧ Nat.dist p.1 q.1 ≤ 1 ∧ Nat.dist p.2 q.2 ≤ 1

instance (p q : Nat × Nat) : Decidable (neighbor p q) := by
  unfold neighbor
  infer_instance

/-- In-bounds positions of the grid, as a predicate. -/
def inB (rows cols : Nat) (p : Nat × Nat) : Prop :=
  p.1 < rows ∧ p.2 < cols

instance (rows cols : Nat) (p : Nat × Nat) : Decidable (inB rows cols p) := by
  unfold inB
  infer_instance

/-- A cell the cascade is allowed to reveal: hidden, unflagged, not a mine. -/
def cascadable (g : Cells) (p : Nat × Nat) : Prop :=
  (g p.1 p.2).is_revealed = false ∧ (g p.1 p.2).is_flagged = false ∧
  (g p.1 p.2).is_mine = false

instance (g : Cells) (p : Nat × Nat) : Decidable (cascadable g p) := by
  unfold cascadable
  infer_instance

/-- The connected region of zero-adjacency cells reachable from the target
`t` (spec §4.3/§8): `t` itself, plus every hidden, unflagged, non-mine,
zero-adjacency in-bounds cell adjacent to a zero-adjacency member already
in the region. -/
inductive zeroRegion (rows cols : Nat) (g : Cells) (t : Nat × Nat) : Nat × Nat → Prop
  | base : zeroRegion rows cols g t t
  | step {z n : Nat × Nat} :
      zeroRegion rows cols g t z → (g z.1 z.2).adjacent_mines = 0 →
      neighbor z n → inB rows cols n → cascadable g n →
      (g n.1 n.2).adjacent_mines = 0 →
      zeroRegion rows cols g t n

/-- The number of unrevealed in-bounds cells: the cascade's termination
measure. -/
def unrevealedCount (rows cols : Nat) (g : Cells) : Nat :=
  ((gridPositions rows cols).filter (fun p => (g p.1 p.2).is_revealed = false)).card

/-- One cell store extends another: the immutable fields agree everywhere
and the revealed set only grows. -/
def CellsLE (g g' : Cells) : Prop :=
  ∀ r c, (g' r c).is_mine = (g r c).is_mine ∧
    (g' r c).is_flagged = (g r c).is_flagged ∧
    (g' r c).adjacent_mines = (g r c).adjacent_mines ∧
    ((g r c).is_revealed = true → (g' r c).is_revealed = true)

/-- All in-bounds cells adjacent to `p` that are neither flagged nor mines
are revealed in `g`: the state of a fully expanded zero cell. -/
def satAt (rows cols : Nat) (g : Cells) (p : Nat × Nat) : Prop :=
  ∀ q, neighbor p q → inB rows cols q → (g q.1 q.2).is_flagged = false →
    (g q.1 q.2).is_mine = false → (g q.1 q.2).is_revealed = true

/-- What one cascade step (or any number of them) may do to the cell store:
immutable fields are untouched, reveals only grow, and every fresh reveal
hits an in-bounds, hidden, unflagged, non-mine cell. -/
def Evolves (rows cols : Nat) (g g' : Cells) : Prop :=
  CellsLE g g' ∧ ∀ p : Nat × Nat, (g' p.1 p.2).is_revealed = true →
    (g p.1 p.2).is_revealed = true ∨ (inB rows cols p ∧ cascadable g p)

/-- The set of cells the claim says a reveal of the zero-adjacency target
`t` newly reveals: `t` itself plus every in-bounds, hidden, unflagged,
non-mine cell adjacent to some member of the zero region of `t`. -/
def cascadeJustified (rows cols : Nat) (base : Cells) (t p : Nat × Nat) : Prop :=
  p = t ∨ ∃ z, zeroRegion rows cols base t z ∧ neighbor z p ∧
    inB rows cols p ∧ cascadable base p

/-- Invariant of the cascade relative to the pre-move store `base` and the
reveal target `t`: the store extends `base` and every revealed cell was
either already revealed in `base` or is one the claim accounts for. -/
def SoundInv (rows cols : Nat) (base : Cells) (t : Nat × Nat) (g : Cells) : Prop :=
  CellsLE base g ∧ ∀ p : Nat × Nat, (g p.1 p.2).is_revealed = true →
    (base p.1 p.2).is_revealed = true ∨ cascadeJustified rows cols base t p

/-- A session driver: apply a list of timed move requests to one game,
a failed `makeMove` leaving the game row and cell store untouched (the
handler throws before any database write on every validation error). -/
def applyMoves (game : Game) (cells : Cells) : List (MoveInput × Int) → Game × Cells
  | [] => (game, cells)
  | (input, now) :: rest =>
    match makeMove game cells input now with
    | Except.ok out => applyMoves out.game out.cells rest
    | Except.error _ => applyMoves game cells rest

/-! Concrete states used to instantiate the theorems below: the 3×3 grid of
spec §8's scenario, one mine at (0, 0), nobody has moved yet. -/

/-- 3×3 cell store, mine at (0, 0): the three cells touching the mine have
`adjacent_mines = 1`, every other cell 0; all hidden, none flagged. -/
def exCells3 : Cells := fun r c =>
  if r = 0 ∧ c = 0 then ⟨true, false, false, 0⟩
  else if (r = 0 ∧ c = 1) ∨ (r = 1 ∧ c = 0) ∨ (r = 1 ∧ c = 1) then ⟨false, false, false, 1⟩
  else ⟨false, false, false, 0⟩

/-- A fresh in-progress 3×3 game row with one mine. -/
def exGame3 : Game :=
  { player_name := some "p"
    difficulty := Difficulty.custom
    rows := 3
    columns := 3
    mines := 1
    status := GameStatus.in_progress
    start_time := 1000
    end_time := none
    duration_seconds := none
    cells_revealed := 0
    flags_placed := 0
    updated_at := 1000 }

/-- The same game, finished and won. -/
def exGameWon : Game :=
  { exGame3 with status := GameStatus.won, duration_seconds := some 45 }

/-- The same game with more flags placed than mines exist. -/
def exGameOverFlagged : Game :=
  { exGame3 with flags_placed := 2 }

/-- A won anonymous game whose recorded duration is 0. -/
def exGameWonZero : Game :=
  { exGame3 with
    status := GameStatus.won
    duration_seconds := some 0
    player_name := none }

/-! Theorems. -/

theorem map_ok_elim {ε α β : Type} {x : Except ε α} {f : α → β} {b : β}
    (h : x.map f = Except.ok b) : ∃ a, x = Except.ok a ∧ f a = b := by
  cases x with
  | error e => simp [Except.map] at h
  | ok a =>
    refine ⟨a, rfl, ?_⟩
    simpa [Except.map] using h

theorem makeMove_resp (game : Game) (cells : Cells) (input : MoveInput) (now : Int)
    (out : MoveOutcome) (hok : makeMove game cells input now = Except.ok out) :
    out.resp = mkMoveResponse out.game out.cells := by
  unfold makeMove at hok
  dsimp only at hok
  iterate 12 (all_goals try split at hok)
  all_goals first
    | (cases hok; rfl)
    | (cases hok)

/-- C7: once a session's status is `won` or `lost`, every mutating move
(reveal, flag or unflag) fails with the invalid-state error `Game is not in
progress`, and no sequence of move requests ever changes the game row or any
cell. -/
theorem terminal_state_immutable (game : Game) (cells : Cells)
    (h : game.status = GameStatus.won ∨ game.status = GameStatus.lost) :
    (∀ input now, makeMove game cells input now = Except.error MoveError.gameNotInProgress) ∧
    ∀ moves, applyMoves game cells moves = (game, cells) := by
  have hne : game.status ≠ GameStatus.in_progress := by
    rcases h with h | h <;> rw [h] <;> intro hcon <;> cases hcon
  have herr : ∀ input now,
      makeMove game cells input now = Except.error MoveError.gameNotInProgress := by
    intro input now
    unfold makeMove
    rw [if_pos hne]
  refine ⟨herr, ?_⟩
  intro moves
  induction moves with
  | nil => rfl
  | cons m rest ih =>
    obtain ⟨i, t⟩ := m
    unfold applyMoves
    rw [herr i t]
    exact ih

theorem terminal_state_immutable_witness :
    (exGameWon.status = GameStatus.won ∨ exGameWon.status = GameStatus.lost) ∧
    makeMove exGameWon exCells3 ⟨1, 1, MoveAction.reveal⟩ 0 =
      Except.error MoveError.gameNotInProgress ∧
    applyMoves exGameWon exCells3
      [(⟨1, 1, MoveAction.reveal⟩, 0), (⟨0, 0, MoveAction.flag⟩, 5)] = (exGameWon, exCells3) := by
  have h := terminal_state_immutable exGameWon exCells3 (Or.inl rfl)
  exact ⟨Or.inl rfl, h.1 ⟨1, 1, MoveAction.reveal⟩ 0, h.2 _⟩

/-- C9, counterexample: `saveHighScore` succeeds on a won session whose
`player_name` is null and whose recorded duration is 0, with an empty
caller-supplied name — the claim says the hand-off must fail when the
session lacks a player name, and must only succeed with a positive
duration and a non-empty name. -/
theorem save_high_score_counterexample :
    exGameWonZero.player_name = none ∧
    exGameWonZero.duration_seconds = some 0 ∧
    exGameWonZero.status = GameStatus.won ∧
    saveHighScore (some exGameWonZero) "" =
      Except.ok ⟨"", Difficulty.custom, 0⟩ := by
  refine ⟨rfl, rfl, rfl, ?_⟩
  rfl

/-- C9, amended: `saveHighScore` fails exactly when the referenced session
is missing, is not `won`, or has a null recorded duration; otherwise it
succeeds and persists the caller-supplied player name together with the
session's difficulty and duration, with no check that the name is non-empty
or that the duration is positive. -/
theorem save_high_score_amended (game? : Option Game) (inputName : String) :
    (game? = none → saveHighScore game? inputName = Except.error SaveError.gameNotFound) ∧
    ∀ game, game? = some game →
      (game.status ≠ GameStatus.won →
        saveHighScore game? inputName = Except.error SaveError.notWon) ∧
      (game.status = GameStatus.won → game.duration_seconds = none →
        saveHighScore game? inputName = Except.error SaveError.noDuration) ∧
      ∀ d, game.status = GameStatus.won → game.duration_seconds = some d →
        saveHighScore game? inputName = Except.ok ⟨inputName, game.difficulty, d⟩ := by
  constructor
  · intro h
    rw [h]
    rfl
  · intro game hg
    subst hg
    refine ⟨?_, ?_, ?_⟩
    · intro hnw
      simp [saveHighScore, hnw]
    · intro hw hd
      simp [saveHighScore, hw, hd]
    · intro d hw hd
      simp [saveHighScore, hw, hd]

theorem save_high_score_amended_witness :
    exGameWon.status = GameStatus.won ∧
    exGameWon.duration_seconds = some 45 ∧
    saveHighScore (some exGameWon) "HighScorePlayer" =
      Except.ok ⟨"HighScorePlayer", Difficulty.custom, 45⟩ := by
  refine ⟨rfl, rfl, ?_⟩
  exact ((save_high_score_amended (some exGameWon) "HighScorePlayer").2
    exGameWon rfl).2.2 45 rfl rfl

/-- C6, counterexample: on the query path, a session with 1 mine and 2
flags placed reports `remaining_mines = -1`, below the claimed
`max(0, mine_count - flagged_count) = 0`. -/
theorem remaining_mines_negative_counterexample :
    (getGameState exGameOverFlagged exCells3).remaining_mines = -1 ∧
    (getGameState exGameOverFlagged exCells3).remaining_mines <
      max 0 ((exGameOverFlagged.mines : Int) - exGameOverFlagged.flags_placed) := by
  constructor <;> decide

/-- C6, amended: the move-response path (`makeMove`) computes
`remaining_mines = max(0, mines - flags_placed)`, never negative; the query
path (`getGameState`) computes `mines - flags_placed` with no lower bound,
so it is negative whenever more flags are placed than mines exist. -/
theorem remaining_mines_amended (game : Game) (cells : Cells) (input : MoveInput) (now : Int) :
    (∀ out, makeMove game cells input now = Except.ok out →
      out.resp.remaining_mines = max 0 ((out.game.mines : Int) - out.game.flags_placed) ∧
      0 ≤ out.resp.remaining_mines) ∧
    (getGameState game cells).remaining_mines = (game.mines : Int) - game.flags_placed := by
  refine ⟨?_, rfl⟩
  intro out hok
  have hresp : out.resp.remaining_mines =
      max 0 ((out.game.mines : Int) - out.game.flags_placed) := by
    rw [makeMove_resp game cells input now out hok]
    rfl
  exact ⟨hresp, hresp ▸ le_max_left 0 _⟩

theorem remaining_mines_amended_witness :
    (makeMove exGame3 exCells3 ⟨1, 1, MoveAction.flag⟩ 2000).map
      (fun o => o.resp.remaining_mines) = Except.ok 0 := by
  obtain ⟨out, hok, hval⟩ := map_ok_elim
    (show (makeMove exGame3 exCells3 ⟨1, 1, MoveAction.flag⟩ 2000).map
      (fun o => ((o.game.mines : Int), o.game.flags_placed)) = Except.ok (1, 1) from by decide)
  have h := (remaining_mines_amended exGame3 exCells3 ⟨1, 1, MoveAction.flag⟩ 2000).1 out hok
  rw [hok]
  have h1 : (out.game.mines : Int) = 1 := congrArg Prod.fst hval
  have h2 : out.game.flags_placed = 1 := congrArg Prod.snd hval
  simp [Except.map, h.1, h1, h2]

/-- C1: the claim fails on the code.  On the `makeMove` response path
(`buildGameGrid`) an unrevealed mine cell of an `in_progress` session is
reported with `is_mine = true` and true `adjacent_mines` values, and on the
`getGameState` path a hidden cell's true `adjacent_mines` is reported
(only `is_mine` is masked) — contradicting the handlers' own documented
visibility rules ("Hidden cells show only flagged status", "hide mine
information"), which `createGame` and `restartGame` do implement. -/
theorem visibility_leak_eval :
    exGame3.status = GameStatus.in_progress ∧
    (exCells3 0 0).is_revealed = false ∧
    (exCells3 0 0).is_mine = true ∧
    (makeMove exGame3 exCells3 ⟨1, 1, MoveAction.flag⟩ 2000).map
      (fun o => ((o.resp.grid 0 0).is_mine, (o.resp.grid 1 0).adjacent_mines,
        decide (o.game.status = GameStatus.in_progress))) = Except.ok (true, 1, true) ∧
    ((getGameState exGame3 exCells3).grid 1 1).adjacent_mines = 1 ∧
    ((getGameState exGame3 exCells3).grid 1 1).is_revealed = false ∧
    ((getGameState exGame3 exCells3).grid 1 1).is_mine = false := by
  decide

/-- C10: whenever a move ends the game (status `won` or `lost`), the same
update records `end_time = now` and
`duration_seconds = max 1 (floor((now - start_time) / 1000))`, which is a
positive integer even when the end timestamp equals or precedes
`start_time`. -/
theorem end_duration_positive (game : Game) (cells : Cells) (input : MoveInput) (now : Int) :
    ∀ out, makeMove game cells input now = Except.ok out →
      out.game.status = GameStatus.won ∨ out.game.status = GameStatus.lost →
      out.game.end_time = some now ∧
      out.game.duration_seconds = some (computeDuration game.start_time now) ∧
      computeDuration game.start_time now = max 1 ((now - game.start_time).fdiv 1000) ∧
      ∀ d, out.game.duration_seconds = some d → 0 < d := by
  intro out hok hend
  have hpos : (0 : Int) < computeDuration game.start_time now := by
    have h1 : (1 : Int) ≤ max 1 ((now - game.start_time).fdiv 1000) := le_max_left 1 _
    unfold computeDuration
    omega
  have hfields : out.game.end_time = some now ∧
      out.game.duration_seconds = some (computeDuration game.start_time now) := by
    unfold makeMove at hok
    dsimp only at hok
    iterate 12 (all_goals try split at hok)
    all_goals first
      | (cases hok; exact ⟨rfl, rfl⟩)
      | (cases hok; simp_all)
      | (cases hok)
  refine ⟨hfields.1, hfields.2, rfl, ?_⟩
  intro d hd
  rw [hfields.2] at hd
  cases hd
  exact hpos

theorem end_duration_positive_witness :
    (makeMove exGame3 exCells3 ⟨0, 0, MoveAction.reveal⟩ 800).map
      (fun o => (o.game.end_time, o.game.duration_seconds,
        decide (o.game.status = GameStatus.lost))) = Except.ok (some 800, some 1, true) := by
  obtain ⟨out, hok, hval⟩ := map_ok_elim
    (show (makeMove exGame3 exCells3 ⟨0, 0, MoveAction.reveal⟩ 800).map
      (fun o => decide (o.game.status = GameStatus.lost)) = Except.ok true from by decide)
  have hlost : out.game.status = GameStatus.lost := of_decide_eq_true hval
  have h := end_duration_positive exGame3 exCells3 ⟨0, 0, MoveAction.reveal⟩ 800 out hok
    (Or.inr hlost)
  rw [hok]
  have hdur : computeDuration exGame3.start_time 800 = 1 := by decide
  simp [Except.map, h.1, h.2.1, hdur, hlost]

lemma cell_unflag_id (x : CellData) (h : x.is_flagged = false) :
    { x with is_flagged := false } = x := by
  cases x
  simp_all

lemma makeMove_flag_eval (game : Game) (cells : Cells) (r c : Nat) (now : Int)
    (hst : game.status = GameStatus.in_progress)
    (hr : r < game.rows) (hc : c < game.columns)
    (hrev : (cells r c).is_revealed = false) (hfl : (cells r c).is_flagged = false) :
    makeMove game cells ⟨r, c, MoveAction.flag⟩ now =
      Except.ok ⟨{ game with flags_placed := game.flags_placed + 1, updated_at := now },
        fun r' c' => if r' = r ∧ c' = c then { cells r c with is_flagged := true } else cells r' c',
        none,
        mkMoveResponse { game with flags_placed := game.flags_placed + 1, updated_at := now }
          (fun r' c' => if r' = r ∧ c' = c then { cells r c with is_flagged := true }
            else cells r' c')⟩ := by
  unfold makeMove
  rw [if_neg (by rw [hst]; simp), if_neg (by dsimp only; omega)]
  dsimp only
  rw [if_neg (by simp [hrev]), if_neg (by simp [hfl])]

lemma makeMove_unflag_eval (game : Game) (cells : Cells) (r c : Nat) (now : Int)
    (hst : game.status = GameStatus.in_progress)
    (hr : r < game.rows) (hc : c < game.columns)
    (hfl : (cells r c).is_flagged = true) :
    makeMove game cells ⟨r, c, MoveAction.unflag⟩ now =
      Except.ok ⟨{ game with flags_placed := game.flags_placed - 1, updated_at := now },
        fun r' c' => if r' = r ∧ c' = c then { cells r c with is_flagged := false } else cells r' c',
        none,
        mkMoveResponse { game with flags_placed := game.flags_placed - 1, updated_at := now }
          (fun r' c' => if r' = r ∧ c' = c then { cells r c with is_flagged := false }
            else cells r' c')⟩ := by
  unfold makeMove
  rw [if_neg (by rw [hst]; simp), if_neg (by dsimp only; omega)]
  dsimp only
  rw [if_neg (by simp [hfl])]


/-- C8: on an in-progress session, flagging a hidden, unflagged cell
succeeds and increments `flags_placed`; unflagging it afterwards succeeds,
restores `flags_placed` to its prior value, leaves `is_revealed` false
throughout, and restores every cell exactly; flagging fails on a revealed
(`CellRevealed`) or already-flagged (`AlreadyFlagged`) cell, and unflagging
fails (`NotFlagged`) on a cell that is not flagged. -/
theorem flag_unflag_roundtrip (game : Game) (cells : Cells) (r c : Nat) (now1 now2 : Int)
    (hst : game.status = GameStatus.in_progress)
    (hr : r < game.rows) (hc : c < game.columns) :
    ((cells r c).is_revealed = false → (cells r c).is_flagged = false →
      ∃ out1, makeMove game cells ⟨r, c, MoveAction.flag⟩ now1 = Except.ok out1 ∧
        out1.game.flags_placed = game.flags_placed + 1 ∧
        (out1.cells r c).is_revealed = false ∧
        (out1.cells r c).is_flagged = true ∧
        (∀ r' c', ¬(r' = r ∧ c' = c) → out1.cells r' c' = cells r' c') ∧
        ∃ out2, makeMove out1.game out1.cells ⟨r, c, MoveAction.unflag⟩ now2 = Except.ok out2 ∧
          out2.game.flags_placed = game.flags_placed ∧
          (out2.cells r c).is_revealed = false ∧
          ∀ r' c', out2.cells r' c' = cells r' c') ∧
    ((cells r c).is_revealed = true →
      makeMove game cells ⟨r, c, MoveAction.flag⟩ now1 = Except.error MoveError.cannotFlagRevealed) ∧
    ((cells r c).is_revealed = false → (cells r c).is_flagged = true →
      makeMove game cells ⟨r, c, MoveAction.flag⟩ now1 = Except.error MoveError.alreadyFlagged) ∧
    ((cells r c).is_flagged = false →
      makeMove game cells ⟨r, c, MoveAction.unflag⟩ now1 = Except.error MoveError.notFlagged) := by
  refine ⟨?_, ?_, ?_, ?_⟩
  · intro hrev hfl
    refine ⟨_, makeMove_flag_eval game cells r c now1 hst hr hc hrev hfl, rfl, ?_, ?_, ?_, ?_⟩
    · simp [hrev]
    · simp
    · intro r' c' hne
      simp [hne]
    · have hfl1 : (((fun r' c' => if r' = r ∧ c' = c then { cells r c with is_flagged := true }
          else cells r' c') : Cells) r c).is_flagged = true := by
        show (if r = r ∧ c = c then { cells r c with is_flagged := true } else cells r c).is_flagged = true
        rw [if_pos ⟨rfl, rfl⟩]

      refine ⟨_, makeMove_unflag_eval _ _ r c now2 hst hr hc hfl1, ?_, ?_, ?_⟩
      · dsimp only
        omega
      · simp [hrev]
      · intro r' c'
        dsimp only
        by_cases hne : r' = r ∧ c' = c
        · obtain ⟨h1, h2⟩ := hne
          subst h1
          subst h2
          rw [if_pos ⟨rfl, rfl⟩, if_pos ⟨rfl, rfl⟩]
          exact cell_unflag_id _ hfl
        · rw [if_neg hne, if_neg hne]
  · intro hrev
    unfold makeMove
    rw [if_neg (by rw [hst]; simp), if_neg (by dsimp only; omega)]
    dsimp only
    rw [if_pos hrev]
  · intro hrev hfl
    unfold makeMove
    rw [if_neg (by rw [hst]; simp), if_neg (by dsimp only; omega)]
    dsimp only
    rw [if_neg (by simp [hrev]), if_pos hfl]
  · intro hfl
    unfold makeMove
    rw [if_neg (by rw [hst]; simp), if_neg (by dsimp only; omega)]
    dsimp only
    rw [if_pos hfl]

theorem flag_unflag_roundtrip_witness :
    exGame3.status = GameStatus.in_progress ∧
    (exCells3 1 1).is_revealed = false ∧ (exCells3 1 1).is_flagged = false ∧
    (makeMove exGame3 exCells3 ⟨1, 1, MoveAction.flag⟩ 2000).map
      (fun o => o.game.flags_placed) = Except.ok 1 := by
  refine ⟨rfl, rfl, rfl, ?_⟩
  obtain ⟨out1, hok1, hfl1, -⟩ :=
    (flag_unflag_roundtrip exGame3 exCells3 1 1 2000 3000 rfl (by decide) (by decide)).1 rfl rfl
  rw [hok1]
  simp [Except.map, hfl1]
  rfl

theorem placeMines_card (m : Nat) :
    ∀ (picks : List (Nat × Nat)) (placed s : Finset (Nat × Nat)),
      placed.card ≤ m → placeMines m picks placed = some s → s.card = m := by
  intro picks
  induction picks with
  | nil =>
    intro placed s hle hsome
    unfold placeMines at hsome
    split at hsome
    · cases hsome
      omega
    · cases hsome
  | cons p rest ih =>
    intro placed s hle hsome
    unfold placeMines at hsome
    split at hsome
    · cases hsome
      omega
    · refine ih _ s ?_ hsome
      by_cases hp : p ∈ placed
      · rw [if_pos hp]
        exact hle
      · rw [if_neg hp]
        have := Finset.card_insert_le p placed
        omega

theorem placeMines_mem (m : Nat) :
    ∀ (picks : List (Nat × Nat)) (placed s : Finset (Nat × Nat)),
      placeMines m picks placed = some s → ∀ q ∈ s, q ∈ placed ∨ q ∈ picks := by
  intro picks
  induction picks with
  | nil =>
    intro placed s hsome q hq
    unfold placeMines at hsome
    split at hsome
    · cases hsome
      exact Or.inl hq
    · cases hsome
  | cons p rest ih =>
    intro placed s hsome q hq
    unfold placeMines at hsome
    split at hsome
    · cases hsome
      exact Or.inl hq
    · rcases ih _ s hsome q hq with h | h
      · by_cases hp : p ∈ placed
        · rw [if_pos hp] at h
          exact Or.inl h
        · rw [if_neg hp] at h
          rcases Finset.mem_insert.mp h with rfl | h
          · exact Or.inr (List.mem_cons_self _ _)
          · exact Or.inl h
      · exact Or.inr (List.mem_cons_of_mem _ h)

theorem placeMines_isSome (m : Nat) :
    ∀ (picks : List (Nat × Nat)) (placed : Finset (Nat × Nat)),
      placed.card ≤ m → m ≤ (placed ∪ picks.toFinset).card →
      (placeMines m picks placed).isSome = true := by
  intro picks
  induction picks with
  | nil =>
    intro placed hle hcov
    unfold placeMines
    rw [if_pos]
    · rfl
    · simpa using hcov
  | cons p rest ih =>
    intro placed hle hcov
    unfold placeMines
    split
    · rfl
    · rename_i hlt
      have hunion : (if p ∈ placed then placed else insert p placed) ∪ rest.toFinset =
          placed ∪ (p :: rest).toFinset := by
        by_cases hp : p ∈ placed
        · rw [if_pos hp]
          ext q
          simp only [Finset.mem_union, List.toFinset_cons, Finset.mem_insert, List.mem_toFinset]
          constructor
          · rintro (h | h)
            · exact Or.inl h
            · exact Or.inr (Or.inr h)
          · rintro (h | rfl | h)
            · exact Or.inl h
            · exact Or.inl hp
            · exact Or.inr h
        · rw [if_neg hp]
          ext q
          simp only [Finset.mem_union, Finset.mem_insert, List.toFinset_cons, List.mem_toFinset]
          tauto
      refine ih _ ?_ ?_
      · by_cases hp : p ∈ placed
        · rw [if_pos hp]
          omega
        · rw [if_neg hp]
          have := Finset.card_insert_le p placed
          omega
      · rw [hunion]
        exact hcov


theorem calc_is_mine (rows cols : Nat) (g : Cells) (r c : Nat) :
    ((calculateAdjacentMines rows cols g) r c).is_mine = (g r c).is_mine := by
  unfold calculateAdjacentMines
  split <;> rfl

/-- C4: the creation path rejects any configuration with
`mine_count >= rows*columns`; for `mine_count < rows*columns` the
mine-placement loop terminates (witnessed on any draw sequence covering the
board, e.g. an enumeration of all positions) and every successfully generated
grid contains exactly `mine_count` mine cells. -/
theorem generate_minefield_count (rows cols m : Nat) :
    (rows * cols ≤ m → ∀ picks,
      createGameGrid rows cols m picks = Except.error CreateError.invalidConfiguration) ∧
    (m < rows * cols →
      (∃ g, createGameGrid rows cols m (gridPositions rows cols).toList = Except.ok g) ∧
      ∀ picks g, (∀ p ∈ picks, p.1 < rows ∧ p.2 < cols) →
        createGameGrid rows cols m picks = Except.ok g →
        mineCount rows cols g = m) := by
  constructor
  · intro h picks
    unfold createGameGrid
    rw [if_pos h]
  · intro hlt
    constructor
    · have hsome : (placeMines m (gridPositions rows cols).toList ∅).isSome = true := by
        refine placeMines_isSome m _ ∅ (by simp) ?_
        rw [Finset.toList_toFinset, Finset.empty_union]
        have : (gridPositions rows cols).card = rows * cols := by
          unfold gridPositions
          rw [Finset.card_product, Finset.card_range, Finset.card_range]
        omega
      obtain ⟨s, hs⟩ := Option.isSome_iff_exists.mp hsome
      refine ⟨calculateAdjacentMines rows cols (minefieldOf s), ?_⟩
      unfold createGameGrid
      rw [if_neg (by omega), hs]
    · intro picks g hin hok
      unfold createGameGrid at hok
      rw [if_neg (by omega)] at hok
      cases hps : placeMines m picks ∅ with
      | none => rw [hps] at hok; cases hok
      | some s =>
        rw [hps] at hok
        cases hok
        have hsub : s ⊆ gridPositions rows cols := by
          intro q hq
          rcases placeMines_mem m picks ∅ s hps q hq with h | h
          · simp at h
          · have hb := hin q h
            unfold gridPositions
            rw [Finset.mem_product, Finset.mem_range, Finset.mem_range]
            exact hb
        have hcard := placeMines_card m picks ∅ s (by simp) hps
        have hfe : ((gridPositions rows cols).filter
            (fun p => ((calculateAdjacentMines rows cols (minefieldOf s)) p.1 p.2).is_mine = true)) = s := by
          ext q
          rw [Finset.mem_filter]
          constructor
          · rintro ⟨hg, hm⟩
            rw [calc_is_mine] at hm
            have hmem : (q.1, q.2) ∈ s := of_decide_eq_true hm
            simpa using hmem
          · intro hq
            refine ⟨hsub hq, ?_⟩
            rw [calc_is_mine]
            have : (q.1, q.2) ∈ s := by simpa using hq
            exact decide_eq_true this
        unfold mineCount
        rw [hfe]
        exact hcard

theorem generate_minefield_count_witness :
    createGameGrid 2 2 4 [] = Except.error CreateError.invalidConfiguration ∧
    (2 : Nat) < 3 * 3 ∧
    (createGameGrid 3 3 2 [(0, 0), (0, 0), (1, 2), (2, 2)]).map
      (fun g => mineCount 3 3 g) = Except.ok 2 := by
  refine ⟨(generate_minefield_count 2 2 4).1 (by decide) [], by decide, ?_⟩
  obtain ⟨g, hok, -⟩ := map_ok_elim
    (show (createGameGrid 3 3 2 [(0, 0), (0, 0), (1, 2), (2, 2)]).map
      (fun _ => ()) = Except.ok () from by decide)
  have hcnt := ((generate_minefield_count 3 3 2).2 (by decide)).2
    [(0, 0), (0, 0), (1, 2), (2, 2)] g (by decide) hok
  rw [hok]
  simp [Except.map, hcnt]

theorem mem_directions_iff (d : Int × Int) :
    d ∈ directions ↔
      -1 ≤ d.1 ∧ d.1 ≤ 1 ∧ -1 ≤ d.2 ∧ d.2 ≤ 1 ∧ ¬(d.1 = 0 ∧ d.2 = 0) := by
  obtain ⟨a, b⟩ := d
  simp only [directions, List.mem_cons, List.not_mem_nil, or_false, Prod.mk.injEq]
  omega

theorem countAdjacent_eq (g : Cells) (rows cols r c : Nat) :
    countAdjacent g rows cols r c =
      ((gridPositions rows cols).filter
        (fun p => neighbor (r, c) p ∧ (g p.1 p.2).is_mine = true)).card := by
  have hnd : directions.Nodup := by decide
  unfold countAdjacent
  rw [← List.toFinset_card_of_nodup (List.Nodup.filter _ hnd), List.toFinset_filter]
  refine Finset.card_nbij'
    (fun d => (((r : Int) + d.1).toNat, ((c : Int) + d.2).toNat))
    (fun q => ((q.1 : Int) - (r : Int), (q.2 : Int) - (c : Int))) ?_ ?_ ?_ ?_
  · intro d hd
    dsimp only
    rw [Finset.mem_filter] at hd
    obtain ⟨hdir, hP⟩ := hd
    rw [List.mem_toFinset, mem_directions_iff] at hdir
    obtain ⟨hq1, hq2, hq3, hq4, hq5⟩ := hdir
    rw [Bool.and_eq_true] at hP
    have hb : inBoundsI rows cols ((r : Int) + d.1) ((c : Int) + d.2) :=
      of_decide_eq_true hP.1
    obtain ⟨hb1, hb2, hb3, hb4⟩ := hb
    rw [Finset.mem_filter]
    refine ⟨?_, ?_, hP.2⟩
    · unfold gridPositions
      rw [Finset.mem_product, Finset.mem_range, Finset.mem_range]
      exact ⟨by omega, by omega⟩
    · unfold neighbor Nat.dist
      refine ⟨?_, by omega, by omega⟩
      intro heq
      rw [Prod.mk.injEq] at heq
      omega
  · intro q hq
    dsimp only
    obtain ⟨q1, q2⟩ := q
    rw [Finset.mem_filter] at hq
    obtain ⟨hgp, hnb, hm⟩ := hq
    unfold gridPositions at hgp
    rw [Finset.mem_product, Finset.mem_range, Finset.mem_range] at hgp
    unfold neighbor Nat.dist at hnb
    obtain ⟨hne, hd1, hd2⟩ := hnb
    have hne' : ¬(r = q1 ∧ c = q2) := by
      intro h
      exact hne (by rw [h.1, h.2])
    have e1 : ((r : Int) + ((q1 : Int) - (r : Int))).toNat = q1 := by omega
    have e2 : ((c : Int) + ((q2 : Int) - (c : Int))).toNat = q2 := by omega
    rw [Finset.mem_filter, List.mem_toFinset, mem_directions_iff]
    constructor
    · exact ⟨by omega, by omega, by omega, by omega, by omega⟩
    · show (decide (inBoundsI rows cols ((r : Int) + ((q1 : Int) - (r : Int)))
          ((c : Int) + ((q2 : Int) - (c : Int)))) &&
          (g ((r : Int) + ((q1 : Int) - (r : Int))).toNat
            ((c : Int) + ((q2 : Int) - (c : Int))).toNat).is_mine) = true
      rw [e1, e2, Bool.and_eq_true]
      refine ⟨decide_eq_true ?_, hm⟩
      exact ⟨by omega, by omega, by omega, by omega⟩
  · intro d hd
    dsimp only
    rw [Finset.mem_filter] at hd
    obtain ⟨hdir, hP⟩ := hd
    rw [Bool.and_eq_true] at hP
    have hb : inBoundsI rows cols ((r : Int) + d.1) ((c : Int) + d.2) :=
      of_decide_eq_true hP.1
    obtain ⟨hb1, hb2, hb3, hb4⟩ := hb
    obtain ⟨a, b⟩ := d
    rw [Prod.mk.injEq]
    exact ⟨by omega, by omega⟩
  · intro q hq
    dsimp only
    rw [Finset.mem_filter] at hq
    obtain ⟨hgp, hnb, hm⟩ := hq
    unfold gridPositions at hgp
    rw [Finset.mem_product, Finset.mem_range, Finset.mem_range] at hgp
    obtain ⟨q1, q2⟩ := q
    rw [Prod.mk.injEq]
    exact ⟨by omega, by omega⟩


theorem mem_boxDeltas_iff (d : Int × Int) :
    d ∈ boxDeltas ↔ -1 ≤ d.1 ∧ d.1 ≤ 1 ∧ -1 ≤ d.2 ∧ d.2 ≤ 1 := by
  obtain ⟨a, b⟩ := d
  simp only [boxDeltas, List.mem_cons, List.not_mem_nil, or_false, Prod.mk.injEq]
  omega

theorem addMinePositions_mem (m : Nat) :
    ∀ (picks : List (Nat × Nat)) (placed s : Finset (Nat × Nat)),
      addMinePositions m picks placed = some s → ∀ q ∈ s, q ∈ placed ∨ q ∈ picks := by
  intro picks
  induction picks with
  | nil =>
    intro placed s hsome q hq
    unfold addMinePositions at hsome
    split at hsome
    · cases hsome
      exact Or.inl hq
    · cases hsome
  | cons p rest ih =>
    intro placed s hsome q hq
    unfold addMinePositions at hsome
    split at hsome
    · cases hsome
      exact Or.inl hq
    · rcases ih _ s hsome q hq with h | h
      · rcases Finset.mem_insert.mp h with rfl | h
        · exact Or.inr (List.mem_cons_self _ _)
        · exact Or.inl h
      · exact Or.inr (List.mem_cons_of_mem _ h)

theorem calculateAdjacentMinesSet_eq (rows cols : Nat) (s : Finset (Nat × Nat))
    (hsub : s ⊆ gridPositions rows cols) (r c : Nat) :
    calculateAdjacentMinesSet r c s =
      ((gridPositions rows cols).filter (fun p => neighbor (r, c) p ∧ p ∈ s)).card := by
  have hnd : boxDeltas.Nodup := by decide
  unfold calculateAdjacentMinesSet
  rw [← List.toFinset_card_of_nodup (List.Nodup.filter _ hnd), List.toFinset_filter]
  refine Finset.card_nbij'
    (fun d => (((r : Int) + d.1).toNat, ((c : Int) + d.2).toNat))
    (fun q => ((q.1 : Int) - (r : Int), (q.2 : Int) - (c : Int))) ?_ ?_ ?_ ?_
  · intro d hd
    dsimp only
    rw [Finset.mem_filter] at hd
    obtain ⟨hbox, hP⟩ := hd
    rw [List.mem_toFinset, mem_boxDeltas_iff] at hbox
    obtain ⟨hq1, hq2, hq3, hq4⟩ := hbox
    rw [Bool.and_eq_true] at hP
    obtain ⟨hnc, hkm⟩ := hP
    rw [Bool.not_eq_true', Bool.and_eq_false_iff] at hnc
    unfold keyMem at hkm
    rw [Bool.and_eq_true, Bool.and_eq_true] at hkm
    obtain ⟨⟨hn1, hn2⟩, hmem⟩ := hkm
    have hn1' : (0 : Int) ≤ (r : Int) + d.1 := of_decide_eq_true hn1
    have hn2' : (0 : Int) ≤ (c : Int) + d.2 := of_decide_eq_true hn2
    have hmem' : (((r : Int) + d.1).toNat, ((c : Int) + d.2).toNat) ∈ s :=
      of_decide_eq_true hmem
    have hnc' : ¬(d.1 = 0 ∧ d.2 = 0) := by
      rcases hnc with h | h
      · intro hcon
        exact absurd (decide_eq_true hcon.1) (by rw [h]; intro hx; cases hx)
      · intro hcon
        exact absurd (decide_eq_true hcon.2) (by rw [h]; intro hx; cases hx)
    rw [Finset.mem_filter]
    refine ⟨hsub hmem', ?_, hmem'⟩
    unfold neighbor Nat.dist
    refine ⟨?_, by omega, by omega⟩
    intro heq
    rw [Prod.mk.injEq] at heq
    omega
  · intro q hq
    dsimp only
    obtain ⟨q1, q2⟩ := q
    rw [Finset.mem_filter] at hq
    obtain ⟨hgp, hnb, hm⟩ := hq
    unfold gridPositions at hgp
    rw [Finset.mem_product, Finset.mem_range, Finset.mem_range] at hgp
    unfold neighbor Nat.dist at hnb
    obtain ⟨hne, hd1, hd2⟩ := hnb
    have hne' : ¬(r = q1 ∧ c = q2) := by
      intro h
      exact hne (by rw [h.1, h.2])
    have e1 : ((r : Int) + ((q1 : Int) - (r : Int))).toNat = q1 := by omega
    have e2 : ((c : Int) + ((q2 : Int) - (c : Int))).toNat = q2 := by omega
    rw [Finset.mem_filter, List.mem_toFinset, mem_boxDeltas_iff]
    constructor
    · exact ⟨by omega, by omega, by omega, by omega⟩
    · show ((!(decide ((q1 : Int) - (r : Int) = 0) && decide ((q2 : Int) - (c : Int) = 0))) &&
        keyMem s ((r : Int) + ((q1 : Int) - (r : Int)))
          ((c : Int) + ((q2 : Int) - (c : Int)))) = true
      rw [Bool.and_eq_true]
      constructor
      · rw [Bool.not_eq_true', Bool.and_eq_false_iff]
        have hnz : ¬((q1 : Int) - (r : Int) = 0 ∧ (q2 : Int) - (c : Int) = 0) := by omega
        rcases not_and_or.mp hnz with h | h
        · exact Or.inl (decide_eq_false h)
        · exact Or.inr (decide_eq_false h)
      · unfold keyMem
        rw [e1, e2, Bool.and_eq_true, Bool.and_eq_true]
        exact ⟨⟨decide_eq_true (by omega), decide_eq_true (by omega)⟩, decide_eq_true hm⟩
  · intro d hd
    dsimp only
    rw [Finset.mem_filter] at hd
    obtain ⟨hbox, hP⟩ := hd
    rw [Bool.and_eq_true] at hP
    unfold keyMem at hP
    rw [Bool.and_eq_true, Bool.and_eq_true] at hP
    obtain ⟨-, ⟨hn1, hn2⟩, -⟩ := hP
    have hn1' : (0 : Int) ≤ (r : Int) + d.1 := of_decide_eq_true hn1
    have hn2' : (0 : Int) ≤ (c : Int) + d.2 := of_decide_eq_true hn2
    obtain ⟨a, b⟩ := d
    rw [Prod.mk.injEq]
    exact ⟨by omega, by omega⟩
  · intro q hq
    dsimp only
    rw [Finset.mem_filter] at hq
    obtain ⟨hgp, -, -⟩ := hq
    unfold gridPositions at hgp
    rw [Finset.mem_product, Finset.mem_range, Finset.mem_range] at hgp
    obtain ⟨q1, q2⟩ := q
    rw [Prod.mk.injEq]
    exact ⟨by omega, by omega⟩


/-- C5: in every successfully generated grid — whether produced by
`createGame`'s `generateMinefield`/`calculateAdjacentMines` path or by
`restartGame`'s set-based `generateMinePositions`/`calculateAdjacentMines`
path — each non-mine cell's `adjacent_mines` equals the exact number of mine
cells among its (at most 8) neighbors sharing an edge or corner, clipped at
the grid boundaries, and every mine cell carries `adjacent_mines = 0`.
(`hin` records that every draw of `Math.floor(Math.random()*rows/columns)`
is in bounds.) -/
theorem adjacent_mines_correct (rows cols m : Nat) (picks : List (Nat × Nat)) (g : Cells)
    (hok : createGameGrid rows cols m picks = Except.ok g ∨
      restartGameGrid rows cols m picks = Except.ok g)
    (hin : ∀ p ∈ picks, p.1 < rows ∧ p.2 < cols)
    (r c : Nat) (hr : r < rows) (hc : c < cols) :
    ((g r c).is_mine = false →
      (g r c).adjacent_mines = ((gridPositions rows cols).filter
        (fun p => neighbor (r, c) p ∧ (g p.1 p.2).is_mine = true)).card) ∧
    ((g r c).is_mine = true → (g r c).adjacent_mines = 0) := by
  rcases hok with hok | hok
  · -- createGame path (create_game.ts)
    unfold createGameGrid at hok
    split at hok
    · cases hok
    cases hps : placeMines m picks ∅ with
    | none => rw [hps] at hok; cases hok
    | some s =>
      rw [hps] at hok
      cases hok
      constructor
      · intro hm
        have hm0 : (minefieldOf s r c).is_mine = false := by
          rw [← calc_is_mine rows cols (minefieldOf s) r c]
          exact hm
        have hcell : (calculateAdjacentMines rows cols (minefieldOf s)) r c =
            { minefieldOf s r c with
              adjacent_mines := countAdjacent (minefieldOf s) rows cols r c } := by
          unfold calculateAdjacentMines
          rw [if_pos ⟨hr, hc, hm0⟩]
        rw [hcell]
        dsimp only
        rw [countAdjacent_eq]
        congr 1
        apply Finset.filter_congr
        intro p hp
        rw [calc_is_mine]
      · intro hm
        have hm0 : (minefieldOf s r c).is_mine = true := by
          rw [← calc_is_mine rows cols (minefieldOf s) r c]
          exact hm
        have hcell : (calculateAdjacentMines rows cols (minefieldOf s)) r c =
            minefieldOf s r c := by
          unfold calculateAdjacentMines
          rw [if_neg]
          intro hcon
          rw [hm0] at hcon
          exact absurd hcon.2.2 (by simp)
        rw [hcell]
        rfl
  · -- restartGame path (src/unnamed/part_002)
    unfold restartGameGrid at hok
    split at hok
    · cases hok
    cases hps : addMinePositions m picks ∅ with
    | none => rw [hps] at hok; cases hok
    | some s =>
      rw [hps] at hok
      cases hok
      have hsub : s ⊆ gridPositions rows cols := by
        intro q hq
        rcases addMinePositions_mem m picks ∅ s hps q hq with h | h
        · exact absurd h (Finset.not_mem_empty q)
        · have hb := hin q h
          unfold gridPositions
          rw [Finset.mem_product, Finset.mem_range, Finset.mem_range]
          exact hb
      constructor
      · intro hm
        have hnot : (r, c) ∉ s := by
          intro hcon
          rw [show (restartCellsOf s r c).is_mine = decide ((r, c) ∈ s) from rfl] at hm
          rw [decide_eq_true hcon] at hm
          cases hm
        have hcell : (restartCellsOf s r c).adjacent_mines =
            calculateAdjacentMinesSet r c s := by
          show (if (r, c) ∈ s then 0 else calculateAdjacentMinesSet r c s) =
            calculateAdjacentMinesSet r c s
          rw [if_neg hnot]
        rw [hcell, calculateAdjacentMinesSet_eq rows cols s hsub r c]
        congr 1
        apply Finset.filter_congr
        intro p hp
        constructor
        · rintro ⟨hnb, hmem⟩
          refine ⟨hnb, ?_⟩
          show decide ((p.1, p.2) ∈ s) = true
          exact decide_eq_true (by rwa [Prod.mk.eta])
        · rintro ⟨hnb, hmem⟩
          refine ⟨hnb, ?_⟩
          have : (p.1, p.2) ∈ s := of_decide_eq_true hmem
          rwa [Prod.mk.eta] at this
      · intro hm
        have hmem : (r, c) ∈ s := by
          have : decide ((r, c) ∈ s) = true := hm
          exact of_decide_eq_true this
        show (if (r, c) ∈ s then 0 else calculateAdjacentMinesSet r c s) = 0
        rw [if_pos hmem]

theorem adjacent_mines_correct_witness :
    (createGameGrid 3 3 2 [(0, 0), (0, 0), (1, 2), (2, 2)]).map
      (fun g => ((g 0 1).is_mine, (g 0 1).adjacent_mines,
        ((gridPositions 3 3).filter
          (fun p => neighbor (0, 1) p ∧ (g p.1 p.2).is_mine = true)).card,
        (g 0 0).is_mine, (g 0 0).adjacent_mines)) =
      Except.ok (false, 2, 2, true, 0) ∧
    (restartGameGrid 3 3 2 [(0, 0), (0, 0), (1, 2), (2, 2)]).map
      (fun g => ((g 0 1).is_mine, (g 0 1).adjacent_mines,
        ((gridPositions 3 3).filter
          (fun p => neighbor (0, 1) p ∧ (g p.1 p.2).is_mine = true)).card,
        (g 0 0).is_mine, (g 0 0).adjacent_mines)) =
      Except.ok (false, 2, 2, true, 0) := by
  constructor
  · obtain ⟨g, hok, -⟩ := map_ok_elim
      (show (createGameGrid 3 3 2 [(0, 0), (0, 0), (1, 2), (2, 2)]).map
        (fun _ => ()) = Except.ok () from by decide)
    have h := adjacent_mines_correct 3 3 2 [(0, 0), (0, 0), (1, 2), (2, 2)] g
      (Or.inl hok) (by decide) 0 1 (by decide) (by decide)
    obtain ⟨gm, hmine, hrest⟩ := map_ok_elim
      (show (createGameGrid 3 3 2 [(0, 0), (0, 0), (1, 2), (2, 2)]).map
        (fun g => ((g 0 1).is_mine, (g 0 1).adjacent_mines, (g 0 0).is_mine,
          (g 0 0).adjacent_mines)) = Except.ok (false, 2, true, 0) from by decide)
    rw [hok] at hmine
    have hg : gm = g := by
      cases hmine
      rfl
    subst hg
    simp only [Prod.mk.injEq] at hrest
    obtain ⟨h1, h2, h3, h4⟩ := hrest
    rw [hok]
    have hcard := h.1 h1
    simp only [Except.map]
    rw [← hcard, h1, h2, h3, h4]
  · obtain ⟨g, hok, -⟩ := map_ok_elim
      (show (restartGameGrid 3 3 2 [(0, 0), (0, 0), (1, 2), (2, 2)]).map
        (fun _ => ()) = Except.ok () from by decide)
    have h := adjacent_mines_correct 3 3 2 [(0, 0), (0, 0), (1, 2), (2, 2)] g
      (Or.inr hok) (by decide) 0 1 (by decide) (by decide)
    obtain ⟨gm, hmine, hrest⟩ := map_ok_elim
      (show (restartGameGrid 3 3 2 [(0, 0), (0, 0), (1, 2), (2, 2)]).map
        (fun g => ((g 0 1).is_mine, (g 0 1).adjacent_mines, (g 0 0).is_mine,
          (g 0 0).adjacent_mines)) = Except.ok (false, 2, true, 0) from by decide)
    rw [hok] at hmine
    have hg : gm = g := by
      cases hmine
      rfl
    subst hg
    simp only [Prod.mk.injEq] at hrest
    obtain ⟨h1, h2, h3, h4⟩ := hrest
    rw [hok]
    have hcard := h.1 h1
    simp only [Except.map]
    rw [← hcard, h1, h2, h3, h4]

theorem CellsLE_refl (g : Cells) : CellsLE g g :=
  fun _ _ => ⟨rfl, rfl, rfl, fun h => h⟩

theorem CellsLE_trans {g1 g2 g3 : Cells} (h12 : CellsLE g1 g2) (h23 : CellsLE g2 g3) :
    CellsLE g1 g3 := by
  intro r c
  obtain ⟨a1, b1, c1, d1⟩ := h12 r c
  obtain ⟨a2, b2, c2, d2⟩ := h23 r c
  exact ⟨a2.trans a1, b2.trans b1, c2.trans c1, fun h => d2 (d1 h)⟩

theorem revealCell_self (g : Cells) (r c : Nat) :
    (revealCell g r c) r c = { g r c with is_revealed := true } := by
  unfold revealCell
  rw [if_pos ⟨rfl, rfl⟩]

theorem revealCell_other (g : Cells) (r c r' c' : Nat) (h : ¬(r' = r ∧ c' = c)) :
    (revealCell g r c) r' c' = g r' c' := by
  unfold revealCell
  rw [if_neg h]

theorem revealCell_le (g : Cells) (r c : Nat) : CellsLE g (revealCell g r c) := by
  intro r' c'
  by_cases h : r' = r ∧ c' = c
  · obtain ⟨rfl, rfl⟩ := h
    rw [revealCell_self]
    exact ⟨rfl, rfl, rfl, fun _ => rfl⟩
  · rw [revealCell_other g r c r' c' h]
    exact ⟨rfl, rfl, rfl, fun hh => hh⟩

theorem revealCell_revealed_iff (g : Cells) (r c : Nat) (p : Nat × Nat) :
    ((revealCell g r c) p.1 p.2).is_revealed = true ↔
      (g p.1 p.2).is_revealed = true ∨ p = (r, c) := by
  by_cases h : p.1 = r ∧ p.2 = c
  · have hp : p = (r, c) := Prod.ext h.1 h.2
    unfold revealCell
    rw [if_pos h]
    simp [hp]
  · have hp : p ≠ (r, c) := by
      intro hcon
      rw [hcon] at h
      exact h ⟨rfl, rfl⟩
    unfold revealCell
    rw [if_neg h]
    simp [hp]

theorem cascadable_anti {g g' : Cells} (hle : CellsLE g g')
    (p : Nat × Nat) (h : cascadable g' p) : cascadable g p := by
  obtain ⟨hm, hf, ha, hr⟩ := hle p.1 p.2
  obtain ⟨h1, h2, h3⟩ := h
  refine ⟨?_, ?_, ?_⟩
  · cases hrev : (g p.1 p.2).is_revealed
    · rfl
    · rw [hr hrev] at h1
      cases h1
  · rw [← hf]
    exact h2
  · rw [← hm]
    exact h3

theorem evolves_refl (rows cols : Nat) (g : Cells) : Evolves rows cols g g :=
  ⟨CellsLE_refl g, fun _ h => Or.inl h⟩

theorem evolves_trans {rows cols : Nat} {g1 g2 g3 : Cells}
    (h12 : Evolves rows cols g1 g2) (h23 : Evolves rows cols g2 g3) :
    Evolves rows cols g1 g3 := by
  obtain ⟨le12, new12⟩ := h12
  obtain ⟨le23, new23⟩ := h23
  refine ⟨CellsLE_trans le12 le23, ?_⟩
  intro p hp
  rcases new23 p hp with h | ⟨hb, hc⟩
  · exact new12 p h
  · right
    exact ⟨hb, cascadable_anti le12 p hc⟩

theorem evolves_reveal {rows cols : Nat} {g : Cells} {r c : Nat}
    (hb : inB rows cols (r, c)) (hc : cascadable g (r, c)) :
    Evolves rows cols g (revealCell g r c) := by
  refine ⟨revealCell_le g r c, ?_⟩
  intro p hp
  rcases (revealCell_revealed_iff g r c p).mp hp with h | rfl
  · exact Or.inl h
  · exact Or.inr ⟨hb, hc⟩

theorem dirsLoop_evolves (rows cols : Nat) (expand : Cells → Nat → Nat → Cells)
    (hexp : ∀ g r c, Evolves rows cols g (expand g r c)) :
    ∀ (ds : List (Int × Int)) (g : Cells) (row col : Nat),
      Evolves rows cols g (dirsLoop rows cols expand ds g row col) := by
  intro ds
  induction ds with
  | nil => intro g row col; exact evolves_refl rows cols g
  | cons d ds ih =>
    intro g row col
    show Evolves rows cols g (dirsLoop rows cols expand ds _ row col)
    refine evolves_trans ?_ (ih _ row col)
    by_cases hb : inBoundsI rows cols ((row : Int) + d.1) ((col : Int) + d.2)
    · rw [if_pos hb]
      by_cases hcond : ((g ((row : Int) + d.1).toNat ((col : Int) + d.2).toNat).is_revealed = false ∧
          (g ((row : Int) + d.1).toNat ((col : Int) + d.2).toNat).is_flagged = false ∧
          (g ((row : Int) + d.1).toNat ((col : Int) + d.2).toNat).is_mine = false)
      · rw [if_pos hcond]
        have hbN : inB rows cols (((row : Int) + d.1).toNat, ((col : Int) + d.2).toNat) := by
          obtain ⟨e1, e2, e3, e4⟩ := hb
          exact ⟨by omega, by omega⟩
        have hcas : cascadable g (((row : Int) + d.1).toNat, ((col : Int) + d.2).toNat) := hcond
        have hrev := evolves_reveal hbN hcas
        by_cases hz : (g ((row : Int) + d.1).toNat ((col : Int) + d.2).toNat).adjacent_mines = 0
        · rw [if_pos hz]
          exact evolves_trans hrev (hexp _ _ _)
        · rw [if_neg hz]
          exact hrev
      · rw [if_neg hcond]
        exact evolves_refl rows cols g
    · rw [if_neg hb]
      exact evolves_refl rows cols g

theorem revealAdjacentCells_evolves (rows cols : Nat) :
    ∀ (fuel : Nat) (g : Cells) (row col : Nat),
      Evolves rows cols g (revealAdjacentCells rows cols fuel g row col) := by
  intro fuel
  induction fuel with
  | zero => intro g row col; exact evolves_refl rows cols g
  | succ fuel ih =>
    intro g row col
    exact dirsLoop_evolves rows cols _ ih directions g row col


theorem unrevealed_le_total (rows cols : Nat) (g : Cells) :
    unrevealedCount rows cols g ≤ rows * cols := by
  unfold unrevealedCount
  have h1 := Finset.card_filter_le (gridPositions rows cols)
    (fun p => (g p.1 p.2).is_revealed = false)
  have h2 : (gridPositions rows cols).card = rows * cols := by
    unfold gridPositions
    rw [Finset.card_product, Finset.card_range, Finset.card_range]
  omega

theorem unrevealed_zero_all {rows cols : Nat} {g : Cells}
    (h : unrevealedCount rows cols g = 0) :
    ∀ p : Nat × Nat, inB rows cols p → (g p.1 p.2).is_revealed = true := by
  intro p hp
  by_contra hrev
  have hrev' : (g p.1 p.2).is_revealed = false := by
    cases hx : (g p.1 p.2).is_revealed
    · rfl
    · exact absurd hx hrev
  have hmem : p ∈ (gridPositions rows cols).filter
      (fun p => (g p.1 p.2).is_revealed = false) := by
    rw [Finset.mem_filter]
    refine ⟨?_, hrev'⟩
    unfold gridPositions
    rw [Finset.mem_product, Finset.mem_range, Finset.mem_range]
    exact hp
  unfold unrevealedCount at h
  rw [Finset.card_eq_zero] at h
  rw [h] at hmem
  exact absurd hmem (Finset.not_mem_empty p)

theorem unrevealed_reveal {rows cols : Nat} {g : Cells} {r c : Nat}
    (hb : inB rows cols (r, c)) (hrev : (g r c).is_revealed = false) :
    unrevealedCount rows cols (revealCell g r c) + 1 = unrevealedCount rows cols g := by
  unfold unrevealedCount
  have hmem : (r, c) ∈ (gridPositions rows cols).filter
      (fun p => (g p.1 p.2).is_revealed = false) := by
    rw [Finset.mem_filter]
    refine ⟨?_, hrev⟩
    unfold gridPositions
    rw [Finset.mem_product, Finset.mem_range, Finset.mem_range]
    exact hb
  have hfe : (gridPositions rows cols).filter
      (fun p => ((revealCell g r c) p.1 p.2).is_revealed = false) =
      ((gridPositions rows cols).filter
        (fun p => (g p.1 p.2).is_revealed = false)).erase (r, c) := by
    ext q
    rw [Finset.mem_erase, Finset.mem_filter, Finset.mem_filter]
    constructor
    · rintro ⟨hq, hqrev⟩
      by_cases he : q = (r, c)
      · subst he
        rw [revealCell_self] at hqrev
        cases hqrev
      · have hne : ¬(q.1 = r ∧ q.2 = c) := by
          intro hcon
          exact he (Prod.ext hcon.1 hcon.2)
        rw [revealCell_other g r c q.1 q.2 hne] at hqrev
        exact ⟨he, hq, hqrev⟩
    · rintro ⟨hne, hq, hqrev⟩
      have hne' : ¬(q.1 = r ∧ q.2 = c) := by
        intro hcon
        exact hne (Prod.ext hcon.1 hcon.2)
      rw [revealCell_other g r c q.1 q.2 hne']
      exact ⟨hq, hqrev⟩
  rw [hfe, Finset.card_erase_of_mem hmem]
  have hpos := Finset.card_pos.mpr ⟨(r, c), hmem⟩
  omega

theorem unrevealed_mono {rows cols : Nat} {g g' : Cells} (hle : CellsLE g g') :
    unrevealedCount rows cols g' ≤ unrevealedCount rows cols g := by
  apply Finset.card_le_card
  intro p hp
  rw [Finset.mem_filter] at hp ⊢
  refine ⟨hp.1, ?_⟩
  cases hx : (g p.1 p.2).is_revealed
  · rfl
  · rw [(hle p.1 p.2).2.2.2 hx] at hp
    cases hp.2

theorem dir_neighbor {rows cols row col : Nat} {d : Int × Int}
    (hd : d ∈ directions)
    (hb : inBoundsI rows cols ((row : Int) + d.1) ((col : Int) + d.2)) :
    neighbor (row, col) (((row : Int) + d.1).toNat, ((col : Int) + d.2).toNat) ∧
    inB rows cols (((row : Int) + d.1).toNat, ((col : Int) + d.2).toNat) := by
  rw [mem_directions_iff] at hd
  obtain ⟨h1, h2, h3, h4, h5⟩ := hd
  obtain ⟨b1, b2, b3, b4⟩ := hb
  constructor
  · unfold neighbor Nat.dist
    refine ⟨?_, by omega, by omega⟩
    intro heq
    rw [Prod.mk.injEq] at heq
    omega
  · exact ⟨by omega, by omega⟩

theorem neighbor_dir {rows cols row col : Nat} {q : Nat × Nat}
    (hnb : neighbor (row, col) q) (hq : inB rows cols q) :
    ∃ d ∈ directions, inBoundsI rows cols ((row : Int) + d.1) ((col : Int) + d.2) ∧
      (((row : Int) + d.1).toNat, ((col : Int) + d.2).toNat) = q := by
  obtain ⟨q1, q2⟩ := q
  obtain ⟨hb1, hb2⟩ := hq
  unfold neighbor Nat.dist at hnb
  obtain ⟨hne, hd1, hd2⟩ := hnb
  have hne' : ¬(row = q1 ∧ col = q2) := by
    intro h
    exact hne (by rw [h.1, h.2])
  refine ⟨((q1 : Int) - (row : Int), (q2 : Int) - (col : Int)), ?_, ?_, ?_⟩
  · rw [mem_directions_iff]
    exact ⟨by omega, by omega, by omega, by omega, by omega⟩
  · exact ⟨by omega, by omega, by omega, by omega⟩
  · rw [Prod.mk.injEq]
    exact ⟨by omega, by omega⟩

theorem revealAdjacentCells_sound (rows cols : Nat) (base : Cells) (t : Nat × Nat) :
    ∀ (fuel : Nat) (g : Cells) (row col : Nat),
      SoundInv rows cols base t g →
      zeroRegion rows cols base t (row, col) →
      (base row col).adjacent_mines = 0 →
      SoundInv rows cols base t (revealAdjacentCells rows cols fuel g row col) := by
  intro fuel
  induction fuel with
  | zero =>
    intro g row col h _ _
    exact h
  | succ fuel ih =>
    intro g row col hInv hreg hzero
    show SoundInv rows cols base t
      (dirsLoop rows cols (revealAdjacentCells rows cols fuel) directions g row col)
    have main : ∀ (ds : List (Int × Int)), (∀ x ∈ ds, x ∈ directions) → ∀ (g : Cells),
        SoundInv rows cols base t g →
        SoundInv rows cols base t
          (dirsLoop rows cols (revealAdjacentCells rows cols fuel) ds g row col) := by
      intro ds
      induction ds with
      | nil =>
        intro _ g h
        exact h
      | cons d ds ihds =>
        intro hsub g hInvg
        have hdmem : d ∈ directions := hsub d (List.mem_cons_self d ds)
        show SoundInv rows cols base t
          (dirsLoop rows cols (revealAdjacentCells rows cols fuel) ds _ row col)
        apply ihds (fun x hx => hsub x (List.mem_cons_of_mem d hx))
        by_cases hb : inBoundsI rows cols ((row : Int) + d.1) ((col : Int) + d.2)
        · rw [if_pos hb]
          by_cases hcond :
              ((g ((row : Int) + d.1).toNat ((col : Int) + d.2).toNat).is_revealed = false ∧
               (g ((row : Int) + d.1).toNat ((col : Int) + d.2).toNat).is_flagged = false ∧
               (g ((row : Int) + d.1).toNat ((col : Int) + d.2).toNat).is_mine = false)
          · rw [if_pos hcond]
            obtain ⟨hnb, hbN⟩ := dir_neighbor hdmem hb
            have hcasBase : cascadable base
                (((row : Int) + d.1).toNat, ((col : Int) + d.2).toNat) :=
              cascadable_anti hInvg.1 _ hcond
            have hJust : cascadeJustified rows cols base t
                (((row : Int) + d.1).toNat, ((col : Int) + d.2).toNat) :=
              Or.inr ⟨(row, col), hreg, hnb, hbN, hcasBase⟩
            have hInv2 : SoundInv rows cols base t
                (revealCell g ((row : Int) + d.1).toNat ((col : Int) + d.2).toNat) := by
              refine ⟨CellsLE_trans hInvg.1 (revealCell_le g _ _), ?_⟩
              intro p hp
              rcases (revealCell_revealed_iff g _ _ p).mp hp with h | rfl
              · exact hInvg.2 p h
              · exact Or.inr hJust
            by_cases hz :
                (g ((row : Int) + d.1).toNat ((col : Int) + d.2).toNat).adjacent_mines = 0
            · rw [if_pos hz]
              have hzBase : (base ((row : Int) + d.1).toNat
                  ((col : Int) + d.2).toNat).adjacent_mines = 0 := by
                rw [← (hInvg.1 ((row : Int) + d.1).toNat ((col : Int) + d.2).toNat).2.2.1]
                exact hz
              have hregN : zeroRegion rows cols base t
                  (((row : Int) + d.1).toNat, ((col : Int) + d.2).toNat) :=
                zeroRegion.step hreg hzero hnb hbN hcasBase hzBase
              exact ih _ _ _ hInv2 hregN hzBase
            · rw [if_neg hz]
              exact hInv2
          · rw [if_neg hcond]
            exact hInvg
        · rw [if_neg hb]
          exact hInvg
    exact main directions (fun x hx => hx) g hInv


theorem satAt_mono {rows cols : Nat} {g g' : Cells} (hle : CellsLE g g') {p : Nat × Nat}
    (h : satAt rows cols g p) : satAt rows cols g' p := by
  intro q hnb hq hf hm
  have hf' : (g q.1 q.2).is_flagged = false := by
    rw [← (hle q.1 q.2).2.1]
    exact hf
  have hm' : (g q.1 q.2).is_mine = false := by
    rw [← (hle q.1 q.2).1]
    exact hm
  exact (hle q.1 q.2).2.2.2 (h q hnb hq hf' hm')

theorem revealAdjacentCells_complete (rows cols : Nat) :
    ∀ (fuel : Nat) (g : Cells) (row col : Nat),
      unrevealedCount rows cols g ≤ fuel →
      (∀ q : Nat × Nat, neighbor (row, col) q → inB rows cols q →
        (g q.1 q.2).is_flagged = false → (g q.1 q.2).is_mine = false →
        ((revealAdjacentCells rows cols fuel g row col) q.1 q.2).is_revealed = true) ∧
      (∀ p : Nat × Nat,
        ((revealAdjacentCells rows cols fuel g row col) p.1 p.2).is_revealed = true →
        (g p.1 p.2).is_revealed = false → (g p.1 p.2).adjacent_mines = 0 →
        satAt rows cols (revealAdjacentCells rows cols fuel g row col) p) := by
  intro fuel
  induction fuel with
  | zero =>
    intro g row col hcnt
    constructor
    · intro q _ hq _ _
      exact unrevealed_zero_all (Nat.le_zero.mp hcnt) q hq
    · intro p hp hnp _
      have hp' : (g p.1 p.2).is_revealed = true := hp
      rw [hp'] at hnp
      cases hnp
  | succ fuel ih =>
    intro g row col hcnt
    show (∀ q : Nat × Nat, neighbor (row, col) q → inB rows cols q →
        (g q.1 q.2).is_flagged = false → (g q.1 q.2).is_mine = false →
        ((dirsLoop rows cols (revealAdjacentCells rows cols fuel) directions g row col)
          q.1 q.2).is_revealed = true) ∧ _
    have expandEv : ∀ (g0 : Cells) (r0 c0 : Nat),
        Evolves rows cols g0 (revealAdjacentCells rows cols fuel g0 r0 c0) :=
      fun g0 r0 c0 => revealAdjacentCells_evolves rows cols fuel g0 r0 c0
    have inner : ∀ (ds : List (Int × Int)) (g : Cells),
        unrevealedCount rows cols g ≤ fuel + 1 →
        (∀ d, d ∈ ds →
          inBoundsI rows cols ((row : Int) + d.1) ((col : Int) + d.2) →
          (g ((row : Int) + d.1).toNat ((col : Int) + d.2).toNat).is_flagged = false →
          (g ((row : Int) + d.1).toNat ((col : Int) + d.2).toNat).is_mine = false →
          ((dirsLoop rows cols (revealAdjacentCells rows cols fuel) ds g row col)
            ((row : Int) + d.1).toNat ((col : Int) + d.2).toNat).is_revealed = true) ∧
        (∀ p : Nat × Nat,
          ((dirsLoop rows cols (revealAdjacentCells rows cols fuel) ds g row col)
            p.1 p.2).is_revealed = true →
          (g p.1 p.2).is_revealed = false → (g p.1 p.2).adjacent_mines = 0 →
          satAt rows cols
            (dirsLoop rows cols (revealAdjacentCells rows cols fuel) ds g row col) p) := by
      intro ds
      induction ds with
      | nil =>
        intro g hcnt
        constructor
        · intro d hd
          cases hd
        · intro p hp hnp _
          have hp' : (g p.1 p.2).is_revealed = true := hp
          rw [hp'] at hnp
          cases hnp
      | cons d ds ihds =>
        intro g hcntg
        by_cases hb : inBoundsI rows cols ((row : Int) + d.1) ((col : Int) + d.2)
        · by_cases hcond :
              ((g ((row : Int) + d.1).toNat ((col : Int) + d.2).toNat).is_revealed = false ∧
               (g ((row : Int) + d.1).toNat ((col : Int) + d.2).toNat).is_flagged = false ∧
               (g ((row : Int) + d.1).toNat ((col : Int) + d.2).toNat).is_mine = false)
          · have hbN : inB rows cols
                (((row : Int) + d.1).toNat, ((col : Int) + d.2).toNat) := by
              obtain ⟨e1, e2, e3, e4⟩ := hb
              exact ⟨by omega, by omega⟩
            have hcnt2 : unrevealedCount rows cols
                (revealCell g ((row : Int) + d.1).toNat ((col : Int) + d.2).toNat) + 1 =
                unrevealedCount rows cols g :=
              unrevealed_reveal hbN hcond.1
            by_cases hz :
                (g ((row : Int) + d.1).toNat ((col : Int) + d.2).toNat).adjacent_mines = 0
            · -- fresh zero neighbor: reveal, expand, continue
              have hG : dirsLoop rows cols (revealAdjacentCells rows cols fuel)
                  (d :: ds) g row col =
                  dirsLoop rows cols (revealAdjacentCells rows cols fuel) ds
                    (revealAdjacentCells rows cols fuel
                      (revealCell g ((row : Int) + d.1).toNat ((col : Int) + d.2).toNat)
                      ((row : Int) + d.1).toNat ((col : Int) + d.2).toNat) row col := by
                show dirsLoop rows cols (revealAdjacentCells rows cols fuel) ds _ row col =
                  dirsLoop rows cols (revealAdjacentCells rows cols fuel) ds _ row col
                rw [if_pos hb, if_pos hcond, if_pos hz]
              set g2 := revealCell g ((row : Int) + d.1).toNat ((col : Int) + d.2).toNat
                with hg2def
              set g3 := revealAdjacentCells rows cols fuel g2
                ((row : Int) + d.1).toNat ((col : Int) + d.2).toNat with hg3def
              have ev23 : Evolves rows cols g2 g3 := expandEv g2 _ _
              have hcnt2' : unrevealedCount rows cols g2 ≤ fuel := by omega
              have hAB3 := ih g2 ((row : Int) + d.1).toNat ((col : Int) + d.2).toNat hcnt2'
              have hcnt3 : unrevealedCount rows cols g3 ≤ fuel + 1 := by
                have : unrevealedCount rows cols g3 ≤ unrevealedCount rows cols g2 :=
                  unrevealed_mono ev23.1
                omega
              have hABds := ihds g3 hcnt3
              rw [hG]
              set G := dirsLoop rows cols (revealAdjacentCells rows cols fuel) ds g3 row col
                with hGdef
              have ev3G : Evolves rows cols g3 G :=
                dirsLoop_evolves rows cols _ expandEv ds g3 row col
              have le2G : CellsLE g2 G := CellsLE_trans ev23.1 ev3G.1
              have le12 : CellsLE g g2 := (revealCell_le g _ _)
              have le1G : CellsLE g G := CellsLE_trans le12 le2G
              constructor
              · intro d' hd' hb' hf' hm'
                rcases List.mem_cons.mp hd' with rfl | hd'
                · -- the freshly revealed neighbor itself
                  apply le2G _ _ |>.2.2.2
                  rw [hg2def, revealCell_self]
                · -- later direction: fields carry over to g3
                  apply hABds.1 d' hd' hb'
                  · rw [(CellsLE_trans le12 ev23.1 _ _).2.1]
                    exact hf'
                  · rw [(CellsLE_trans le12 ev23.1 _ _).1]
                    exact hm'
              · intro p hpG hpg hpz
                by_cases hp3 : (g3 p.1 p.2).is_revealed = true
                · by_cases hp2 : (g2 p.1 p.2).is_revealed = true
                  · -- p must be the fresh neighbor
                    have hpeq : p = (((row : Int) + d.1).toNat, ((col : Int) + d.2).toNat) := by
                      rcases (revealCell_revealed_iff g _ _ p).mp hp2 with h | h
                      · rw [h] at hpg
                        cases hpg
                      · exact h
                    subst hpeq
                    -- saturation of the fresh zero cell from the nested expansion
                    intro q hnb hq hf hm
                    have hf2 : (g2 q.1 q.2).is_flagged = false := by
                      rw [(le2G q.1 q.2).2.1] at hf
                      exact hf
                    have hm2 : (g2 q.1 q.2).is_mine = false := by
                      rw [(le2G q.1 q.2).1] at hm
                      exact hm
                    exact ev3G.1 q.1 q.2 |>.2.2.2 (hAB3.1 q hnb hq hf2 hm2)
                  · -- p was revealed by the nested expansion
                    have hp2' : (g2 p.1 p.2).is_revealed = false := by
                      cases hx : (g2 p.1 p.2).is_revealed
                      · rfl
                      · exact absurd hx hp2
                    have hz2 : (g2 p.1 p.2).adjacent_mines = 0 := by
                      rw [(le12 p.1 p.2).2.2.1]
                      exact hpz
                    exact satAt_mono ev3G.1 (hAB3.2 p hp3 hp2' hz2)
                · -- p was revealed by the remaining directions
                  have hp3' : (g3 p.1 p.2).is_revealed = false := by
                    cases hx : (g3 p.1 p.2).is_revealed
                    · rfl
                    · exact absurd hx hp3
                  have hz3 : (g3 p.1 p.2).adjacent_mines = 0 := by
                    rw [(CellsLE_trans le12 ev23.1 p.1 p.2).2.2.1]
                    exact hpz
                  exact hABds.2 p hpG hp3' hz3
            · -- fresh nonzero neighbor: reveal only
              have hG : dirsLoop rows cols (revealAdjacentCells rows cols fuel)
                  (d :: ds) g row col =
                  dirsLoop rows cols (revealAdjacentCells rows cols fuel) ds
                    (revealCell g ((row : Int) + d.1).toNat ((col : Int) + d.2).toNat)
                    row col := by
                show dirsLoop rows cols (revealAdjacentCells rows cols fuel) ds _ row col =
                  dirsLoop rows cols (revealAdjacentCells rows cols fuel) ds _ row col
                rw [if_pos hb, if_pos hcond, if_neg hz]
              set g2 := revealCell g ((row : Int) + d.1).toNat ((col : Int) + d.2).toNat
                with hg2def
              have hcnt2' : unrevealedCount rows cols g2 ≤ fuel + 1 := by omega
              have hABds := ihds g2 hcnt2'
              rw [hG]
              set G := dirsLoop rows cols (revealAdjacentCells rows cols fuel) ds g2 row col
                with hGdef
              have ev2G : Evolves rows cols g2 G :=
                dirsLoop_evolves rows cols _ expandEv ds g2 row col
              have le12 : CellsLE g g2 := revealCell_le g _ _
              constructor
              · intro d' hd' hb' hf' hm'
                rcases List.mem_cons.mp hd' with rfl | hd'
                · apply ev2G.1 _ _ |>.2.2.2
                  rw [hg2def, revealCell_self]
                · apply hABds.1 d' hd' hb'
                  · rw [(le12 _ _).2.1]
                    exact hf'
                  · rw [(le12 _ _).1]
                    exact hm'
              · intro p hpG hpg hpz
                have hpne : ¬(p.1 = ((row : Int) + d.1).toNat ∧
                    p.2 = ((col : Int) + d.2).toNat) := by
                  intro hcon
                  have hpeq : p = (((row : Int) + d.1).toNat, ((col : Int) + d.2).toNat) :=
                    Prod.ext hcon.1 hcon.2
                  rw [hpeq] at hpz
                  exact hz hpz
                have hp2 : (g2 p.1 p.2).is_revealed = false := by
                  rw [hg2def, revealCell_other g _ _ p.1 p.2 hpne]
                  exact hpg
                have hz2 : (g2 p.1 p.2).adjacent_mines = 0 := by
                  rw [(le12 p.1 p.2).2.2.1]
                  exact hpz
                exact hABds.2 p hpG hp2 hz2
          · -- neighbor not cascadable (already revealed, flagged, or a mine)
            have hG : dirsLoop rows cols (revealAdjacentCells rows cols fuel)
                (d :: ds) g row col =
                dirsLoop rows cols (revealAdjacentCells rows cols fuel) ds g row col := by
              show dirsLoop rows cols (revealAdjacentCells rows cols fuel) ds _ row col =
                dirsLoop rows cols (revealAdjacentCells rows cols fuel) ds _ row col
              rw [if_pos hb, if_neg hcond]
            have hABds := ihds g hcntg
            rw [hG]
            have evG : Evolves rows cols g
                (dirsLoop rows cols (revealAdjacentCells rows cols fuel) ds g row col) :=
              dirsLoop_evolves rows cols _ expandEv ds g row col
            constructor
            · intro d' hd' hb' hf' hm'
              rcases List.mem_cons.mp hd' with rfl | hd'
              · -- condition failed though fields are fine: cell already revealed
                have hrev : (g ((row : Int) + d'.1).toNat
                    ((col : Int) + d'.2).toNat).is_revealed = true := by
                  cases hx : (g ((row : Int) + d'.1).toNat
                      ((col : Int) + d'.2).toNat).is_revealed
                  · exact absurd ⟨hx, hf', hm'⟩ hcond
                  · rfl
                exact (evG.1 _ _).2.2.2 hrev
              · exact hABds.1 d' hd' hb' hf' hm'
            · exact hABds.2
        · -- out of bounds
          have hG : dirsLoop rows cols (revealAdjacentCells rows cols fuel)
              (d :: ds) g row col =
              dirsLoop rows cols (revealAdjacentCells rows cols fuel) ds g row col := by
            show dirsLoop rows cols (revealAdjacentCells rows cols fuel) ds _ row col =
              dirsLoop rows cols (revealAdjacentCells rows cols fuel) ds _ row col
            rw [if_neg hb]
          have hABds := ihds g hcntg
          rw [hG]
          constructor
          · intro d' hd' hb' hf' hm'
            rcases List.mem_cons.mp hd' with rfl | hd'
            · exact absurd hb' hb
            · exact hABds.1 d' hd' hb' hf' hm'
          · exact hABds.2
    constructor
    · intro q hnb hq hf hm
      obtain ⟨d, hd, hbI, hqeq⟩ := neighbor_dir hnb hq
      subst hqeq
      exact (inner directions g hcnt).1 d hd hbI hf hm
    · exact (inner directions g hcnt).2


theorem makeMove_reveal_cells (game : Game) (cells : Cells) (r c : Nat) (now : Int)
    (out : MoveOutcome)
    (hmine : (cells r c).is_mine = false) (hzero : (cells r c).adjacent_mines = 0)
    (hok : makeMove game cells ⟨r, c, MoveAction.reveal⟩ now = Except.ok out) :
    out.cells = revealAdjacentCells game.rows game.columns (game.rows * game.columns)
      (revealCell cells r c) r c := by
  unfold makeMove at hok
  dsimp only at hok
  rw [if_pos (show (cells r c).is_mine = false ∧ (cells r c).adjacent_mines = 0 from
    ⟨hmine, hzero⟩)] at hok
  iterate 12 (all_goals try split at hok)
  all_goals first | (cases hok; rfl) | (cases hok)

theorem makeMove_reveal_cells_plain (game : Game) (cells : Cells) (r c : Nat) (now : Int)
    (out : MoveOutcome)
    (hnz : ¬((cells r c).is_mine = false ∧ (cells r c).adjacent_mines = 0))
    (hok : makeMove game cells ⟨r, c, MoveAction.reveal⟩ now = Except.ok out) :
    out.cells = revealCell cells r c := by
  unfold makeMove at hok
  dsimp only at hok
  rw [if_neg hnz] at hok
  iterate 12 (all_goals try split at hok)
  all_goals first | (cases hok; rfl) | (cases hok)

theorem makeMove_reveal_won_iff (game : Game) (cells : Cells) (r c : Nat) (now : Int)
    (out : MoveOutcome)
    (hok : makeMove game cells ⟨r, c, MoveAction.reveal⟩ now = Except.ok out) :
    out.game.status = GameStatus.won ↔
      ((cells r c).is_mine = false ∧
        game.rows * game.columns - game.mines ≤
          countRevealedCells game.rows game.columns out.cells) := by
  unfold makeMove at hok
  dsimp only at hok
  iterate 12 (all_goals try split at hok)
  all_goals cases hok
  all_goals simp_all


theorem countRevealed_le_nonMine (rows cols mines : Nat) (base g2 : Cells)
    (hev : Evolves rows cols base g2)
    (hmc : mineCount rows cols base = mines)
    (hnomine : ∀ p ∈ gridPositions rows cols,
      (base p.1 p.2).is_mine = true → (base p.1 p.2).is_revealed = false) :
    countRevealedCells rows cols g2 ≤ rows * cols - mines := by
  have hsub : (gridPositions rows cols).filter (fun p => (g2 p.1 p.2).is_revealed = true) ⊆
      (gridPositions rows cols) \
        ((gridPositions rows cols).filter (fun p => (base p.1 p.2).is_mine = true)) := by
    intro p hp
    rw [Finset.mem_filter] at hp
    rw [Finset.mem_sdiff, Finset.mem_filter]
    refine ⟨hp.1, ?_⟩
    rintro ⟨-, hmine⟩
    rcases hev.2 p hp.2 with hrev | ⟨-, hcas⟩
    · rw [hnomine p hp.1 hmine] at hrev
      cases hrev
    · rw [hcas.2.2] at hmine
      cases hmine
  have hcard := Finset.card_le_card hsub
  rw [Finset.card_sdiff (Finset.filter_subset _ _)] at hcard
  have hgrid : (gridPositions rows cols).card = rows * cols := by
    unfold gridPositions
    rw [Finset.card_product, Finset.card_range, Finset.card_range]
  unfold countRevealedCells
  unfold mineCount at hmc
  omega

/-- C2: a successful reveal on an in-progress session (whose cell store has
exactly `mines` mine cells, none of them revealed) transitions the session
to `won` exactly when, after the reveal and its cascade, the revealed-cell
count equals `rows*columns - mines` and the reveal's target was not a mine;
on that transition `end_time` and `duration_seconds` are set in the same
update. -/
theorem makeMove_win_iff (game : Game) (cells : Cells) (r c : Nat) (now : Int)
    (hst : game.status = GameStatus.in_progress)
    (hr : r < game.rows) (hc : c < game.columns)
    (hrev : (cells r c).is_revealed = false) (hfl : (cells r c).is_flagged = false)
    (hmines : mineCount game.rows game.columns cells = game.mines)
    (hnomine : ∀ p ∈ gridPositions game.rows game.columns,
      (cells p.1 p.2).is_mine = true → (cells p.1 p.2).is_revealed = false) :
    ∀ out, makeMove game cells ⟨r, c, MoveAction.reveal⟩ now = Except.ok out →
      (out.game.status = GameStatus.won ↔
        (countRevealedCells game.rows game.columns out.cells =
          game.rows * game.columns - game.mines ∧ (cells r c).is_mine = false)) ∧
      (out.game.status = GameStatus.won →
        out.game.end_time = some now ∧
        out.game.duration_seconds = some (computeDuration game.start_time now)) := by
  intro out hok
  constructor
  · rw [makeMove_reveal_won_iff game cells r c now out hok]
    by_cases hm : (cells r c).is_mine = false
    · -- target safe: the revealed count can never exceed the safe-cell count
      have hev : Evolves game.rows game.columns cells out.cells := by
        by_cases hz : (cells r c).adjacent_mines = 0
        · rw [makeMove_reveal_cells game cells r c now out hm hz hok]
          exact evolves_trans (evolves_reveal ⟨hr, hc⟩ ⟨hrev, hfl, hm⟩)
            (revealAdjacentCells_evolves _ _ _ _ _ _)
        · rw [makeMove_reveal_cells_plain game cells r c now out (fun hcon => hz hcon.2) hok]
          exact evolves_reveal ⟨hr, hc⟩ ⟨hrev, hfl, hm⟩
      have hle := countRevealed_le_nonMine game.rows game.columns game.mines cells out.cells
        hev hmines hnomine
      constructor
      · rintro ⟨-, hge⟩
        exact ⟨by omega, hm⟩
      · rintro ⟨hcnt, -⟩
        exact ⟨hm, by omega⟩
    · -- target is a mine: both sides are false
      constructor
      · rintro ⟨hcon, -⟩
        exact absurd hcon hm
      · rintro ⟨-, hcon⟩
        exact absurd hcon hm
  · intro hw
    have h := end_duration_positive game cells ⟨r, c, MoveAction.reveal⟩ now out hok
      (Or.inl hw)
    exact ⟨h.1, h.2.1⟩

theorem makeMove_win_iff_witness :
    mineCount 3 3 exCells3 = exGame3.mines ∧
    (makeMove exGame3 exCells3 ⟨2, 2, MoveAction.reveal⟩ 2500).map
      (fun o => (decide (o.game.status = GameStatus.won),
        countRevealedCells 3 3 o.cells, o.game.end_time, o.game.duration_seconds)) =
      Except.ok (true, 8, some 2500, some 1) := by
  refine ⟨by decide, ?_⟩
  obtain ⟨out, hok, hval⟩ := map_ok_elim
    (show (makeMove exGame3 exCells3 ⟨2, 2, MoveAction.reveal⟩ 2500).map
      (fun o => countRevealedCells 3 3 o.cells) = Except.ok 8 from by decide)
  have h := makeMove_win_iff exGame3 exCells3 2 2 2500 rfl (by decide) (by decide)
    (by decide) (by decide) (by decide) (by decide) out hok
  rw [show exGame3.rows = 3 from rfl, show exGame3.columns = 3 from rfl,
    show exGame3.mines = 1 from rfl] at h
  have hwon : out.game.status = GameStatus.won := by
    apply h.1.mpr
    refine ⟨?_, by decide⟩
    rw [hval]
  have hend := h.2 hwon
  rw [hok]
  simp only [Except.map]
  rw [hwon, hval, hend.1, hend.2]
  rfl


/-- C3: revealing an in-bounds, hidden, unflagged, non-mine cell with
`adjacent_mines = 0` on an in-progress session terminates and reveals
exactly: the target, the cells of the connected zero-adjacency region
reachable from it, and their immediate in-bounds, hidden, non-mine,
non-flagged neighbors (revealed but not expanded further when their
adjacency is positive); no flagged cell and no mine is ever revealed, and
no cell's mine, flag or adjacency field changes. -/
theorem reveal_cascade_closure (game : Game) (cells : Cells) (r c : Nat) (now : Int)
    (hst : game.status = GameStatus.in_progress)
    (hr : r < game.rows) (hc : c < game.columns)
    (hcas : cascadable cells (r, c))
    (hzero : (cells r c).adjacent_mines = 0) :
    ∀ out, makeMove game cells ⟨r, c, MoveAction.reveal⟩ now = Except.ok out →
      ∀ p : Nat × Nat,
        ((out.cells p.1 p.2).is_revealed = true ↔
          (cells p.1 p.2).is_revealed = true ∨
          cascadeJustified game.rows game.columns cells (r, c) p) ∧
        (out.cells p.1 p.2).is_mine = (cells p.1 p.2).is_mine ∧
        (out.cells p.1 p.2).is_flagged = (cells p.1 p.2).is_flagged ∧
        (out.cells p.1 p.2).adjacent_mines = (cells p.1 p.2).adjacent_mines := by
  intro out hok
  obtain ⟨hrev0, hfl0, hm0⟩ := hcas
  have hcells := makeMove_reveal_cells game cells r c now out hm0 hzero hok
  have hInv1 : SoundInv game.rows game.columns cells (r, c) (revealCell cells r c) := by
    refine ⟨revealCell_le cells r c, ?_⟩
    intro p hp
    rcases (revealCell_revealed_iff cells r c p).mp hp with h | rfl
    · exact Or.inl h
    · exact Or.inr (Or.inl rfl)
  have hSound : SoundInv game.rows game.columns cells (r, c)
      (revealAdjacentCells game.rows game.columns (game.rows * game.columns)
        (revealCell cells r c) r c) :=
    revealAdjacentCells_sound game.rows game.columns cells (r, c) _
      (revealCell cells r c) r c hInv1 zeroRegion.base hzero
  rw [hcells]
  set final := revealAdjacentCells game.rows game.columns (game.rows * game.columns)
    (revealCell cells r c) r c with hfin
  have hleF : CellsLE cells final := hSound.1
  have le1F : CellsLE (revealCell cells r c) final :=
    (revealAdjacentCells_evolves game.rows game.columns (game.rows * game.columns)
      (revealCell cells r c) r c).1
  have hcnt1 : unrevealedCount game.rows game.columns (revealCell cells r c) ≤
      game.rows * game.columns := unrevealed_le_total _ _ _
  have hcomp := revealAdjacentCells_complete game.rows game.columns
    (game.rows * game.columns) (revealCell cells r c) r c hcnt1
  have hsatT : satAt game.rows game.columns final (r, c) := by
    intro q hnb hq hf hm
    apply hcomp.1 q hnb hq
    · rw [(le1F q.1 q.2).2.1] at hf
      exact hf
    · rw [(le1F q.1 q.2).1] at hm
      exact hm
  have hclose : ∀ z, zeroRegion game.rows game.columns cells (r, c) z →
      satAt game.rows game.columns final z := by
    intro z hz
    induction hz with
    | base => exact hsatT
    | @step z n hzr hz0 hnb hbN hcasN hzN ih =>
      by_cases hnt : n = (r, c)
      · rw [hnt]
        exact hsatT
      · have hfn : (final n.1 n.2).is_revealed = true := by
          apply ih n hnb hbN
          · rw [(hleF n.1 n.2).2.1]
            exact hcasN.2.1
          · rw [(hleF n.1 n.2).1]
            exact hcasN.2.2
        have hnrev1 : ((revealCell cells r c) n.1 n.2).is_revealed = false := by
          rw [revealCell_other cells r c n.1 n.2
            (fun h => hnt (Prod.ext h.1 h.2))]
          exact hcasN.1
        have hzero1 : ((revealCell cells r c) n.1 n.2).adjacent_mines = 0 := by
          rw [((revealCell_le cells r c) n.1 n.2).2.2.1]
          exact hzN
        exact hcomp.2 n hfn hnrev1 hzero1
  intro p
  refine ⟨?_, (hleF p.1 p.2).1, (hleF p.1 p.2).2.1, (hleF p.1 p.2).2.2.1⟩
  constructor
  · intro hp
    exact hSound.2 p hp
  · rintro (hp | hp)
    · exact (hleF p.1 p.2).2.2.2 hp
    · rcases hp with rfl | ⟨z, hzreg, hnb, hbp, hcasp⟩
      · apply (le1F r c).2.2.2
        rw [revealCell_self]
      · apply hclose z hzreg p hnb hbp
        · rw [(hleF p.1 p.2).2.1]
          exact hcasp.2.1
        · rw [(hleF p.1 p.2).1]
          exact hcasp.2.2

theorem reveal_cascade_closure_witness :
    exGame3.status = GameStatus.in_progress ∧
    cascadable exCells3 (2, 2) ∧ (exCells3 2 2).adjacent_mines = 0 ∧
    (makeMove exGame3 exCells3 ⟨2, 2, MoveAction.reveal⟩ 2500).map
      (fun o => ((o.cells 1 1).is_revealed, (o.cells 0 0).is_revealed,
        (o.cells 0 0).is_mine)) = Except.ok (true, false, true) := by
  refine ⟨rfl, by decide, rfl, ?_⟩
  obtain ⟨out, hok, -⟩ := map_ok_elim
    (show (makeMove exGame3 exCells3 ⟨2, 2, MoveAction.reveal⟩ 2500).map
      (fun _ => ()) = Except.ok () from by decide)
  have h := reveal_cascade_closure exGame3 exCells3 2 2 2500 rfl (by decide) (by decide)
    (by decide) rfl out hok
  have h11 : (out.cells 1 1).is_revealed = true := by
    apply (h (1, 1)).1.mpr
    right
    right
    refine ⟨(2, 2), zeroRegion.base, ?_, by decide, by decide⟩
    decide
  have h00 : (out.cells 0 0).is_revealed = false := by
    cases hx : (out.cells 0 0).is_revealed
    · rfl
    · rcases (h (0, 0)).1.mp hx with hcon | hcon | ⟨z, hzreg, hnb, hbp, hcasp⟩
      · cases hcon
      · cases hcon
      · rcases hcasp with ⟨-, -, hmine⟩
        cases hmine
  have hm00 : (out.cells 0 0).is_mine = true := (h (0, 0)).2.1
  rw [hok]
  simp only [Except.map]
  rw [h11, h00, hm00]


end Minesweeper
